import Mathlib

/-!
# fcgirt: a FastCGI round tripper with a bounded connection pool

A shallow embedding of `fcgirt.go`.  The file has two halves:

* the response header translation (`parseResponse`) and the request translation
  (`RoundTrip`), embedded as pure functions whose collaborators (the dialer, the
  backend call `Do`, the MIME header reader) are explicit arguments;
* the connection pool (`freeConn`, `releaseConn`, `SetMaxOpenConns`), embedded
  both as state-passing functions for a single call and as a labelled
  transition system over several callers for the interleaving properties.
-/

namespace Fcgirt

/-! ## Data model -/

/-- Go `error` values.  `errorf` is an error built by `fmt.Errorf` inside this
package (the message is kept); `foreign` is an error handed over by a
collaborator (dialer, backend call, header reader). -/
inductive Error where
  | errorf (msg : String)
  | foreign (msg : String)
  deriving DecidableEq, Repr

/-- A byte stream (`io.Reader`), represented by the bytes still to be read. -/
abbrev Reader := String

/-- Go `textproto.MIMEHeader`, a `map[string][]string`, as an association list;
the first binding of a key is the one the map holds. -/
abbrev MIMEHeader := List (String × List String)

/-- Go map indexing `header[key]` with the comma-ok form: `none` is `ok = false`. -/
def MIMEHeader.get (h : MIMEHeader) (key : String) : Option (List String) :=
  h.lookup key

/-- Go `delete(header, key)`. -/
def MIMEHeader.delete (h : MIMEHeader) (key : String) : MIMEHeader :=
  h.filter (fun kv => kv.1 != key)

/-- The fields of `url.URL` that `RoundTrip` reads. -/
structure URL where
  Path : String
  RawQuery : String
  deriving DecidableEq, Repr

/-- The fields of `http.Request` that matter here: the ones `RoundTrip` reads
(`Method`, `URL`, `Body`) and `RemoteAddr`, the client address of the request. -/
structure Request where
  Method : String
  URL : URL
  Body : Reader
  RemoteAddr : String
  deriving DecidableEq, Repr

/-- The fields of `http.Response` that `parseResponse` sets.  `Header` and `Body`
are nil in the composite literal of line 55 and assigned on lines 89 and 90. -/
structure Response where
  Status : String
  StatusCode : Int
  Proto : String
  ProtoMajor : Int
  ProtoMinor : Int
  ContentLength : Int
  Close : Bool
  Request : Request
  Header : MIMEHeader
  Body : Reader
  deriving DecidableEq, Repr

/-- Modelled from the spec: `FastCGIParam` is declared in a file of the package
that is not part of the sources at hand; the spec calls it "a name/opaque-byte-value
pair".  The composite literals of lines 41 to 45 fill it positionally with a name
and the bytes of a string. -/
structure FastCGIParam where
  Name : String
  Value : String
  deriving DecidableEq, Repr

/-- Modelled from the spec: `FastCGIResponse` is declared outside the sources at
hand; `parseResponse` reads only its `Stdout` stream, the backend's "combined
header block and body". -/
structure FastCGIResponse where
  Stdout : Reader
  deriving DecidableEq, Repr

/-- The outcome of `textproto.Reader.ReadMIMEHeader` on a stream: the header
mapping, the reader positioned after the header block, and the error. -/
structure HeaderRead where
  header : MIMEHeader
  bufr : Reader
  err : Option Error
  deriving DecidableEq, Repr

/-! ## Go library functions used by `parseResponse` -/

/-- Go `strings.SplitN(s, sep, n)` for a one-character separator and `n ≥ 0`:
at most `n` substrings, the last one being the unsplit remainder. -/
def SplitN (s : List Char) (sep : Char) : Nat → List (List Char)
  | 0 => []
  | 1 => [s]
  | n + 2 =>
    match s.span (fun c => c != sep) with
    | (a, []) => [a]
    | (a, _ :: b) => a :: SplitN b sep (n + 1)

/-- The value of a string of decimal digits, most significant first. -/
def digitsValue (ds : List Char) : Nat :=
  ds.foldl (fun acc c => 10 * acc + (c.toNat - 48)) 0

/-- The sign and the digit part of the argument of `strconv.Atoi`: one leading
`-` or `+` is taken off; the flag tells whether it was `-`. -/
def signSplit : List Char → Bool × List Char
  | '-' :: r => (true, r)
  | '+' :: r => (false, r)
  | cs => (false, cs)

/-- Go `strconv.Atoi` for the 64-bit `int`: an optional sign `+` or `-`, then one
or more decimal digits; a syntax error otherwise, and a range error when the
value does not fit into a signed 64-bit integer.  The integer that Go returns
next to an error is dropped: the caller discards it. -/
def Atoi (s : String) : Except Error Int :=
  let body := signSplit s.data
  if body.2.isEmpty || !(body.2.all Char.isDigit) then
    .error (.foreign "strconv.Atoi: invalid syntax")
  else
    let v : Int := if body.1 then -(digitsValue body.2 : Int) else (digitsValue body.2 : Int)
    if v < -(2 : Int) ^ 63 || (2 : Int) ^ 63 - 1 < v then
      .error (.foreign "strconv.Atoi: value out of range")
    else
      .ok v

/-- The part of a `Status` value in front of its first space, the whole value
when it has no space: what the specification calls the numeric portion. -/
def codePart (v : String) : String :=
  String.mk (v.data.takeWhile (fun c => c != ' '))

/-! ## Response translation -/

/-- The method `RoundTripper.parseResponse` (lines 54 to 92).  `ReadMIMEHeader` stands for
`textproto.NewReader(bufio.NewReader(fr.Stdout)).ReadMIMEHeader()`; the Go
result pair `(*http.Response, error)` is kept as a pair of options. -/
def parseResponse (ReadMIMEHeader : Reader → HeaderRead) (req : Request)
    (fr : FastCGIResponse) : Option Response × Option Error :=
  let res : Response :=
    { Status := "200 OK", StatusCode := 200,
      Proto := "HTTP/1.1", ProtoMajor := 1, ProtoMinor := 1,
      ContentLength := -1, Close := false, Request := req,
      Header := [], Body := "" }
  let rd := ReadMIMEHeader fr.Stdout
  if rd.err.isSome then
    (none, rd.err)
  else
    match rd.header.get "Status" with
    | some status =>
      let header := rd.header.delete "Status"
      if status.length != 1 then
        (none, some (.errorf ("unexpected number of Status headers ("
          ++ toString status.length ++ ")")))
      else
        let parts := SplitN (status.getD 0 "").data ' ' 2
        if parts.length < 2 then
          (none, some (.errorf "malformed Status line"))
        else
          match Atoi (String.mk (parts.getD 0 [])) with
          | .error _ => (none, some (.errorf "malformed Status line"))
          | .ok code =>
            (some { res with StatusCode := code, Status := status.getD 0 "",
                             Header := header, Body := rd.bufr }, none)
    | none =>
      (some { res with Header := rd.header, Body := rd.bufr }, none)

/-! ## The connection pool -/

/-- The identity of a `*FastCGIConn` (the pointer stored in `freeConns`). -/
abbrev FastCGIConn := Nat

/-- The identity of a `net.Conn` returned by the dialer. -/
abbrev NetConn := Nat

/-- The fields of `RoundTripper` guarded by `mu` (lines 25 to 28).  The mutex is
represented by the atomicity of the functions below; the counter is a Go `int`
that counts live connections and stays far from the limits of its type. -/
structure RoundTripper where
  numOpenConns : Int
  maxOpenConns : Int
  freeConns : List FastCGIConn
  deriving DecidableEq, Repr

/-- Observable actions of one call, in program order. -/
inductive Event where
  | acquire
  | dial
  | signal
  | wait
  | backend (conn : FastCGIConn) (body : Reader) (params : List FastCGIParam)
  | release (conn : FastCGIConn)
  deriving DecidableEq, Repr

/-- How a call ends: it returns a value, or it stays parked in `cond.Wait()`.
Both carry the pool state it leaves behind and its events. -/
inductive Outcome (α : Type) where
  | returned (val : α) (rt : RoundTripper) (trace : List Event)
  | blocked (rt : RoundTripper) (trace : List Event)
  deriving DecidableEq, Repr

/-- The events of an outcome. -/
def Outcome.trace {α : Type} : Outcome α → List Event
  | .returned _ _ tr => tr
  | .blocked _ tr => tr

/-- The pool state of an outcome. -/
def Outcome.pool {α : Type} : Outcome α → RoundTripper
  | .returned _ rt _ => rt
  | .blocked rt _ => rt

/-- Put events in front of the events of an outcome. -/
def Outcome.after {α : Type} (pre : List Event) : Outcome α → Outcome α
  | .returned v rt tr => .returned v rt (pre ++ tr)
  | .blocked rt tr => .blocked rt (pre ++ tr)

/-- The method `RoundTripper.dial` (lines 94 to 100).  `Dial` is the result of
`rt.dialer.Dial()`; `NewFastCGIConn` wraps the raw connection.  The Go pair is
`(conn, nil)` for `.ok conn` and `(nil, err)` for `.error err`. -/
def dial (Dial : Except Error NetConn) (NewFastCGIConn : NetConn → FastCGIConn) :
    Except Error FastCGIConn :=
  match Dial with
  | .error err => .error err
  | .ok nc => .ok (NewFastCGIConn nc)

/-- What one test of the loop of `freeConn` does while it holds the lock. -/
inductive LoopStep where
  /-- the idle list is non-empty: lines 119 to 122 -/
  | take (conn : FastCGIConn) (rt : RoundTripper)
  /-- a slot is reserved and the lock released for dialing: lines 106 and 107 -/
  | create (rt : RoundTripper)
  /-- the pool is full: `cond.Wait()`, line 117 -/
  | park
  deriving DecidableEq, Repr

/-- One pass over lines 104 to 121 of `freeConn` with the lock held. -/
def freeConnLoop (rt : RoundTripper) : LoopStep :=
  if h : rt.freeConns = [] then
    if rt.maxOpenConns < 0 || rt.numOpenConns < rt.maxOpenConns then
      .create { rt with numOpenConns := rt.numOpenConns + 1 }
    else
      .park
  else
    .take (rt.freeConns.getLast h) { rt with freeConns := rt.freeConns.dropLast }

/-- Lines 110 to 113 of `freeConn`: the slot reserved for a failed dial is given
back (the `Signal` of line 112 is an event of the caller). -/
def dialFailed (rt : RoundTripper) : RoundTripper :=
  { rt with numOpenConns := rt.numOpenConns - 1 }

/-- The method `RoundTripper.freeConn` (lines 102 to 123) for one caller.  `wakeups` lists
the pool states the caller finds each time it is woken in `cond.Wait()` and
holds the lock again; with none left it stays blocked.  While the caller dials
the pool is left to itself; interference there is covered by `step` below. -/
def freeConn (Dial : Except Error NetConn) (NewFastCGIConn : NetConn → FastCGIConn)
    (wakeups : List RoundTripper) (rt : RoundTripper) :
    Outcome (Except Error FastCGIConn) :=
  match freeConnLoop rt with
  | .take conn rt1 => .returned (.ok conn) rt1 []
  | .create rt1 =>
    match dial Dial NewFastCGIConn with
    | .error err => .returned (.error err) (dialFailed rt1) [.dial, .signal]
    | .ok conn => .returned (.ok conn) rt1 [.dial]
  | .park =>
    match wakeups with
    | [] => .blocked rt [.wait]
    | w :: ws => (freeConn Dial NewFastCGIConn ws w).after [.wait]

/-- The method `RoundTripper.releaseConn` (lines 125 to 130): the new pool state and the
`Signal` it issues. -/
def releaseConn (rt : RoundTripper) (c : FastCGIConn) : RoundTripper × List Event :=
  ({ rt with freeConns := rt.freeConns ++ [c] }, [.signal])

/-- The method `RoundTripper.SetMaxOpenConns` (lines 132 to 136). -/
def SetMaxOpenConns (rt : RoundTripper) (maxOpenConns : Int) : RoundTripper :=
  { rt with maxOpenConns := maxOpenConns }

/-- The pool state built by `NewRoundTripper` (lines 138 to 145). -/
def NewRoundTripper : RoundTripper :=
  { numOpenConns := 0, maxOpenConns := -1, freeConns := [] }

/-! ## Request translation -/

/-- Modelled from the spec: `NewParamStream` is defined outside the sources at
hand; the backend call takes an "ordered Parameter sequence", so the stream is
the list it was built from. -/
def NewParamStream (params : List FastCGIParam) : List FastCGIParam := params

/-- The collaborators of one `RoundTrip` call. -/
structure Env where
  /-- result of `rt.dialer.Dial()` -/
  Dial : Except Error NetConn
  /-- the constructor of `FastCGIConn` -/
  NewFastCGIConn : NetConn → FastCGIConn
  /-- pool states found on each wake-up inside `freeConn` -/
  wakeups : List RoundTripper
  /-- the backend call `conn.Do(body, params)` -/
  Do : FastCGIConn → Reader → List FastCGIParam → Except Error FastCGIResponse
  /-- the MIME header reader applied to the backend output -/
  ReadMIMEHeader : Reader → HeaderRead

/-- The parameter list built on lines 40 to 46. -/
def params (req : Request) : List FastCGIParam :=
  [ ⟨"QUERY_STRING", req.URL.RawQuery⟩,
    ⟨"REQUEST_METHOD", req.Method⟩,
    ⟨"REQUEST_URI", req.URL.Path⟩,
    ⟨"REMOTE_ADDR", "127.0.0.1"⟩,
    ⟨"SCRIPT_NAME", "fastcgi"⟩ ]

/-- The method `RoundTripper.RoundTrip` (lines 31 to 52).  The deferred `releaseConn` of
line 38 runs after the result is computed, on every path below it. -/
def RoundTrip (env : Env) (req : Request) (rt : RoundTripper) :
    Outcome (Option Response × Option Error) :=
  match freeConn env.Dial env.NewFastCGIConn env.wakeups rt with
  | .blocked rt1 tr => .blocked rt1 (.acquire :: tr)
  | .returned (.error err) rt1 tr => .returned (none, some err) rt1 (.acquire :: tr)
  | .returned (.ok conn) rt1 tr =>
    let ps := params req
    let result : Option Response × Option Error :=
      match env.Do conn req.Body (NewParamStream ps) with
      | .error err => (none, some err)
      | .ok fcgires => parseResponse env.ReadMIMEHeader req fcgires
    let rel := releaseConn rt1 conn
    .returned result rel.1
      (.acquire :: tr ++ [.backend conn req.Body (NewParamStream ps), .release conn] ++ rel.2)

/-! ## Interleaved callers -/

/-- Where a caller stands inside `RoundTrip`. -/
inductive PC where
  /-- outside any call -/
  | idle
  /-- inside `freeConn`, about to take the lock and test the loop condition -/
  | acquiring
  /-- parked in `cond.Wait()` -/
  | waiting
  /-- slot reserved, lock released, `rt.dial()` in progress -/
  | dialing
  /-- `freeConn` returned the connection; the backend call has not started -/
  | holding (c : FastCGIConn)
  /-- inside `conn.Do` -/
  | calling (c : FastCGIConn)
  /-- the result is computed; the deferred `releaseConn` is pending -/
  | finishing (c : FastCGIConn)
  deriving DecidableEq, Repr

/-- The connection a caller has been lent, if any. -/
def PC.held : PC → Option FastCGIConn
  | .holding c => some c
  | .calling c => some c
  | .finishing c => some c
  | _ => none

/-- Whether a caller accounts for one unit of `numOpenConns`: it dials or it has
been lent a connection. -/
def PC.occupies : PC → Bool
  | .dialing => true
  | pc => pc.held.isSome

/-- The shared pool and the callers using it. -/
structure Sys where
  rt : RoundTripper
  threads : List PC
  deriving DecidableEq, Repr

/-- All connections alive in a state: the idle ones and the lent ones. -/
def Sys.conns (s : Sys) : List FastCGIConn :=
  s.rt.freeConns ++ s.threads.filterMap PC.held

/-- Number of connections lent to callers. -/
def Sys.lentOut (s : Sys) : Nat :=
  s.threads.countP (fun pc => pc.held.isSome)

/-- The effect of `cond.Signal()` on the callers: `some j` wakes the parked caller `j`,
which must take the lock and test the loop condition again; `none` is the
signal that finds nobody parked. -/
def signalTo (ts : List PC) : Option Nat → Option (List PC)
  | none => if ts.all (fun pc => pc != .waiting) then some ts else none
  | some j => if ts[j]? = some .waiting then some (ts.set j .acquiring) else none

/-- The atomic steps of the callers. -/
inductive Action where
  /-- caller `i` enters `RoundTrip` and `freeConn` -/
  | call (i : Nat)
  /-- caller `i` takes the lock and runs one test of the loop of `freeConn` -/
  | test (i : Nat)
  /-- the dial of caller `i` returns the new connection `c` -/
  | dialOk (i : Nat) (c : FastCGIConn)
  /-- the dial of caller `i` fails; lines 110 to 113 run and wake `wake` -/
  | dialErr (i : Nat) (wake : Option Nat)
  /-- caller `i` starts the backend call -/
  | doStart (i : Nat)
  /-- the backend call of caller `i` returns and the result is computed -/
  | doEnd (i : Nat)
  /-- the deferred `releaseConn` of caller `i` runs and wakes `wake` -/
  | release (i : Nat) (wake : Option Nat)
  /-- `SetMaxOpenConns n` -/
  | setMax (n : Int)
  deriving DecidableEq, Repr

/-- Whether an action changes the maximum. -/
def Action.isSetMax : Action → Bool
  | .setMax _ => true
  | _ => false

/-- One atomic step; `none` when the action is not enabled. -/
def step (s : Sys) : Action → Option Sys
  | .call i =>
    if s.threads[i]? = some .idle then
      some { s with threads := s.threads.set i .acquiring }
    else none
  | .test i =>
    if s.threads[i]? = some .acquiring then
      match freeConnLoop s.rt with
      | .take c rt1 => some ⟨rt1, s.threads.set i (.holding c)⟩
      | .create rt1 => some ⟨rt1, s.threads.set i .dialing⟩
      | .park => some ⟨s.rt, s.threads.set i .waiting⟩
    else none
  | .dialOk i c =>
    if s.threads[i]? = some .dialing ∧ c ∉ s.conns then
      some { s with threads := s.threads.set i (.holding c) }
    else none
  | .dialErr i wake =>
    if s.threads[i]? = some .dialing then
      (signalTo (s.threads.set i .idle) wake).map (fun ts => ⟨dialFailed s.rt, ts⟩)
    else none
  | .doStart i =>
    match s.threads[i]? with
    | some (.holding c) => some { s with threads := s.threads.set i (.calling c) }
    | _ => none
  | .doEnd i =>
    match s.threads[i]? with
    | some (.calling c) => some { s with threads := s.threads.set i (.finishing c) }
    | _ => none
  | .release i wake =>
    match s.threads[i]? with
    | some (.finishing c) =>
      (signalTo (s.threads.set i .idle) wake).map (fun ts => ⟨(releaseConn s.rt c).1, ts⟩)
    | _ => none
  | .setMax n => some { s with rt := SetMaxOpenConns s.rt n }

/-- Run a schedule; `none` when one of its actions is not enabled. -/
def run (s : Sys) : List Action → Option Sys
  | [] => some s
  | a :: as => (step s a).bind (fun s1 => run s1 as)

/-- A fresh pool with maximum `n` and `k` callers, none of them in a call. -/
def Sys.init (n : Int) (k : Nat) : Sys :=
  ⟨{ numOpenConns := 0, maxOpenConns := n, freeConns := [] }, List.replicate k .idle⟩

/-- The accounting invariant of a pool whose maximum stays `n`: the counter is
within the maximum and equals the number of idle connections plus the number
of callers that dial or have been lent a connection. -/
def PoolInv (n : Int) (s : Sys) : Prop :=
  s.rt.maxOpenConns = n
  ∧ s.rt.numOpenConns ≤ n
  ∧ s.rt.numOpenConns = (s.rt.freeConns.length : Int) + (s.threads.countP PC.occupies : Int)

instance (n : Int) (s : Sys) : Decidable (PoolInv n s) := by
  unfold PoolInv
  exact inferInstance

/-- Whether an event is a call of `releaseConn`. -/
def Event.isRelease : Event → Bool
  | .release _ => true
  | _ => false

/-- Whether an event is a backend call `conn.Do`. -/
def Event.isBackend : Event → Bool
  | .backend _ _ _ => true
  | _ => false

/-- The pool built by `NewRoundTripper` with `k` callers, none of them in a call. -/
def Sys.start (k : Nat) : Sys :=
  ⟨NewRoundTripper, List.replicate k .idle⟩

/-- The accounting invariant that holds whatever the maximum is: the counter
equals the number of idle connections plus the number of callers that dial or
have been lent a connection. -/
def CountInv (s : Sys) : Prop :=
  s.rt.numOpenConns = (s.rt.freeConns.length : Int) + (s.threads.countP PC.occupies : Int)

instance (s : Sys) : Decidable (CountInv s) := by
  unfold CountInv
  exact inferInstance

/-- Every connection is in one place at most: the number of its occurrences in
the idle list plus the number of callers it is lent to is at most one. -/
def LentOnce (s : Sys) : Prop :=
  ∀ c : FastCGIConn,
    s.rt.freeConns.count c + s.threads.countP (fun pc => pc.held == some c) ≤ 1

/-! ## Auxiliary facts about the library functions -/

theorem SplitN_two (s : List Char) :
    SplitN s ' ' 2 =
      if ' ' ∈ s then
        [s.takeWhile (fun c => c != ' '), (s.dropWhile (fun c => c != ' ')).tail]
      else [s] := by
  induction s with
  | nil => simp [SplitN, List.span, List.span.loop]
  | cons c s ih =>
    simp only [SplitN, List.span_eq_take_drop] at ih ⊢
    by_cases hc : c = ' '
    · subst hc
      simp [List.takeWhile, List.dropWhile]
    · have hb : (c != ' ') = true := by simpa using hc
      have hc2 : ¬ ' ' = c := fun e => hc e.symm
      simp only [List.takeWhile, List.dropWhile, hb, List.mem_cons, hc2, false_or]
      by_cases hm : ' ' ∈ s
      · simp only [hm, if_true] at ih ⊢
        cases hd : List.dropWhile (fun c => c != ' ') s with
        | nil => rw [hd] at ih; simp at ih
        | cons x r => simp
      · simp only [hm, if_false] at ih ⊢
        cases hd : List.dropWhile (fun c => c != ' ') s with
        | nil => simp_all
        | cons x r => rw [hd] at ih; simp at ih

theorem takeWhile_of_no_space (s : List Char) (h : ' ' ∉ s) :
    s.takeWhile (fun c => c != ' ') = s := by
  induction s with
  | nil => rfl
  | cons c s ih =>
    have hc : c ≠ ' ' := fun e => h (by simp [e])
    have hs : ' ' ∉ s := fun e => h (by simp [e])
    have hb : (c != ' ') = true := by simpa using hc
    simp [List.takeWhile, hb, ih hs]

theorem SplitN_head (s : List Char) :
    (SplitN s ' ' 2).getD 0 [] = s.takeWhile (fun c => c != ' ') := by
  rw [SplitN_two]
  by_cases hm : ' ' ∈ s
  · simp [hm]
  · simp [hm, takeWhile_of_no_space s hm]

theorem SplitN_length_lt (s : List Char) :
    (SplitN s ' ' 2).length < 2 ↔ ' ' ∉ s := by
  rw [SplitN_two]
  by_cases hm : ' ' ∈ s <;> simp [hm]

theorem signSplit_digits_no_space (cs : List Char)
    (h : (signSplit cs).2.all Char.isDigit = true) : ' ' ∉ cs := by
  have hd : ∀ l : List Char, l.all Char.isDigit = true → ' ' ∉ l := by
    intro l hl hm
    have := List.all_eq_true.mp hl _ hm
    exact absurd this (by decide)
  unfold signSplit at h
  split at h
  · intro hm
    rcases List.mem_cons.mp hm with e | hm
    · exact absurd e (by decide)
    · exact hd _ h hm
  · intro hm
    rcases List.mem_cons.mp hm with e | hm
    · exact absurd e (by decide)
    · exact hd _ h hm
  · exact hd _ h

theorem Atoi_ok_no_space (s : String) (n : Int) (h : Atoi s = .ok n) : ' ' ∉ s.data := by
  unfold Atoi at h
  simp only at h
  split at h
  · cases h
  · rename_i hc
    simp only [Bool.or_eq_true, Bool.not_eq_true', not_or] at hc
    apply signSplit_digits_no_space
    simpa using hc.2

theorem codePart_of_sep (a b : String) (h : ' ' ∉ a.data) :
    codePart (a ++ " " ++ b) = a := by
  have : (a ++ " " ++ b).data = a.data ++ ' ' :: b.data := by
    simp [String.data_append]
  unfold codePart
  rw [this, List.takeWhile_append_of_pos]
  · simp [List.takeWhile]
  · intro c hc
    have : c ≠ ' ' := fun e => h (e ▸ hc)
    simpa using this

/-- The result of `parseResponse` on a header block with exactly one `Status`
value `v`, in terms of the space test and of `Atoi` on the part before it. -/
theorem parseResponse_single (R : Reader → HeaderRead) (req : Request)
    (fr : FastCGIResponse) (v : String)
    (hok : (R fr.Stdout).err = none)
    (hst : (R fr.Stdout).header.get "Status" = some [v]) :
    parseResponse R req fr =
      if ' ' ∉ v.data then (none, some (.errorf "malformed Status line"))
      else
        match Atoi (codePart v) with
        | .error _ => (none, some (.errorf "malformed Status line"))
        | .ok code =>
          (some { Status := v, StatusCode := code,
                  Proto := "HTTP/1.1", ProtoMajor := 1, ProtoMinor := 1,
                  ContentLength := -1, Close := false, Request := req,
                  Header := (R fr.Stdout).header.delete "Status",
                  Body := (R fr.Stdout).bufr }, none) := by
  unfold parseResponse
  simp only [hok, hst, Option.isSome_none, Bool.false_eq_true, if_false, List.length_singleton,
    bne_self_eq_false, List.getD_cons_zero, SplitN_head, SplitN_length_lt]
  rfl

/-! ## Response translation: the `Status` field -/

/-- C1. A header block with exactly one `Status` field whose value is an integer
(as `strconv.Atoi` reads it, value `n`), a space and a remainder: `parseResponse`
succeeds, the status code is `n`, the status line is the value verbatim, and
the header mapping is the parsed one without the key `Status`. -/
theorem parseResponse_status_override (R : Reader → HeaderRead) (req : Request)
    (fr : FastCGIResponse) (num rest : String) (n : Int)
    (hok : (R fr.Stdout).err = none)
    (hst : (R fr.Stdout).header.get "Status" = some [num ++ " " ++ rest])
    (hnum : Atoi num = .ok n) :
    parseResponse R req fr =
      (some { Status := num ++ " " ++ rest, StatusCode := n,
              Proto := "HTTP/1.1", ProtoMajor := 1, ProtoMinor := 1,
              ContentLength := -1, Close := false, Request := req,
              Header := (R fr.Stdout).header.delete "Status",
              Body := (R fr.Stdout).bufr }, none)
    ∧ ((R fr.Stdout).header.delete "Status").get "Status" = none := by
  constructor
  · rw [parseResponse_single R req fr _ hok hst,
      codePart_of_sep num rest (Atoi_ok_no_space num n hnum), hnum]
    have : ' ' ∈ (num ++ " " ++ rest).data := by simp [String.data_append]
    simp [this]
  · unfold MIMEHeader.get MIMEHeader.delete
    generalize (R fr.Stdout).header = h
    induction h with
    | nil => rfl
    | cons kv h ih =>
      by_cases hk : kv.1 = "Status"
      · simp [List.filter, hk, ih]
      · have hb : (kv.1 != "Status") = true := by simpa using hk
        have hb2 : ("Status" == kv.1) = false := by
          simpa using fun e : "Status" = kv.1 => hk e.symm
        simp [List.filter, hb, List.lookup, hb2, ih]

/-- Witness for C1: the header block `Status: 404 Not Found`. -/
theorem parseResponse_status_override_witness :
    parseResponse (fun s => ⟨[("Status", ["404 Not Found"])], s, none⟩)
        ⟨"GET", ⟨"/", ""⟩, "", ""⟩ ⟨"body"⟩ =
      (some { Status := "404" ++ " " ++ "Not Found", StatusCode := 404,
              Proto := "HTTP/1.1", ProtoMajor := 1, ProtoMinor := 1,
              ContentLength := -1, Close := false,
              Request := ⟨"GET", ⟨"/", ""⟩, "", ""⟩,
              Header := MIMEHeader.delete [("Status", ["404 Not Found"])] "Status",
              Body := "body" }, none)
    ∧ (MIMEHeader.delete [("Status", ["404 Not Found"])] "Status").get "Status" = none :=
  parseResponse_status_override (fun s => ⟨[("Status", ["404 Not Found"])], s, none⟩)
    ⟨"GET", ⟨"/", ""⟩, "", ""⟩ ⟨"body"⟩ "404" "Not Found" 404 rfl (by decide) rfl

/-- C2, counterexample.  On the header block `Status: 404` the part of the value
before the first space is the whole value `404`, which `Atoi` reads as 404, and
yet `parseResponse` fails with the malformed-status error. -/
theorem parseResponse_status_without_space_fails :
    Atoi (codePart "404") = .ok 404
    ∧ parseResponse (fun s => ⟨[("Status", ["404"])], s, none⟩)
        ⟨"GET", ⟨"/", ""⟩, "", ""⟩ ⟨"body"⟩ =
      (none, some (.errorf "malformed Status line")) :=
  ⟨rfl, by decide⟩

/-- C2, amended.  On a header block with exactly one `Status` field of value `v`,
`parseResponse` fails with the malformed-status error if and only if `v` has no
space or the part before its first space is not read as an integer by `Atoi`;
when `v` has a space and that part is read as the integer `n`, the call
succeeds with status code `n`. -/
theorem parseResponse_malformed_iff (R : Reader → HeaderRead) (req : Request)
    (fr : FastCGIResponse) (v : String)
    (hok : (R fr.Stdout).err = none)
    (hst : (R fr.Stdout).header.get "Status" = some [v]) :
    (parseResponse R req fr = (none, some (.errorf "malformed Status line")) ↔
      (' ' ∉ v.data ∨ ∀ n, Atoi (codePart v) ≠ .ok n))
    ∧ (∀ n, ' ' ∈ v.data → Atoi (codePart v) = .ok n →
        ∃ res, parseResponse R req fr = (some res, none) ∧ res.StatusCode = n) := by
  rw [parseResponse_single R req fr v hok hst]
  by_cases hsp : ' ' ∈ v.data
  · cases ha : Atoi (codePart v) with
    | error e => simp [hsp]
    | ok code => simp [hsp]
  · simp [hsp]

/-- Witness for C2 (amended): the header block `Status: 404 Not Found`. -/
theorem parseResponse_malformed_iff_witness :
    (parseResponse (fun s => ⟨[("Status", ["404 Not Found"])], s, none⟩)
        ⟨"GET", ⟨"/", ""⟩, "", ""⟩ ⟨"body"⟩ = (none, some (.errorf "malformed Status line")) ↔
      (' ' ∉ "404 Not Found".data ∨ ∀ n, Atoi (codePart "404 Not Found") ≠ .ok n))
    ∧ (∀ n, ' ' ∈ "404 Not Found".data → Atoi (codePart "404 Not Found") = .ok n →
        ∃ res, parseResponse (fun s => ⟨[("Status", ["404 Not Found"])], s, none⟩)
          ⟨"GET", ⟨"/", ""⟩, "", ""⟩ ⟨"body"⟩ = (some res, none) ∧ res.StatusCode = n) :=
  parseResponse_malformed_iff (fun s => ⟨[("Status", ["404 Not Found"])], s, none⟩)
    ⟨"GET", ⟨"/", ""⟩, "", ""⟩ ⟨"body"⟩ "404 Not Found" rfl (by decide)

/-- C3. When the key `Status` holds two or more values, `parseResponse` returns
an error and no response whatever the values are, and so does a `RoundTrip` whose
backend call delivered that header block; the connection is released all the same. -/
theorem parseResponse_duplicate_status (R : Reader → HeaderRead) (req : Request)
    (fr : FastCGIResponse) (status : List String)
    (hok : (R fr.Stdout).err = none)
    (hst : (R fr.Stdout).header.get "Status" = some status)
    (hlen : 2 ≤ status.length) :
    parseResponse R req fr =
      (none, some (.errorf ("unexpected number of Status headers ("
        ++ toString status.length ++ ")")))
    ∧ ∀ (env : Env) (rt rt1 : RoundTripper) (conn : FastCGIConn) (tr : List Event),
        env.ReadMIMEHeader = R →
        freeConn env.Dial env.NewFastCGIConn env.wakeups rt = .returned (.ok conn) rt1 tr →
        env.Do conn req.Body (NewParamStream (params req)) = .ok fr →
        ∃ tr2, RoundTrip env req rt =
          .returned (none, some (.errorf ("unexpected number of Status headers ("
            ++ toString status.length ++ ")")))
            { rt1 with freeConns := rt1.freeConns ++ [conn] } tr2 := by
  have hp : parseResponse R req fr =
      (none, some (.errorf ("unexpected number of Status headers ("
        ++ toString status.length ++ ")"))) := by
    unfold parseResponse
    have hne : (status.length != 1) = true := by
      simp only [bne_iff_ne, ne_eq]; omega
    simp only [hok, hst, Option.isSome_none, Bool.false_eq_true, if_false, hne, if_true]
  refine ⟨hp, ?_⟩
  intro env rt rt1 conn tr hR hfree hdo
  unfold RoundTrip
  simp only [hfree, hdo, hR, hp, releaseConn]
  exact ⟨_, rfl⟩

/-- Witness for C3: a header block with two `Status` fields. -/
theorem parseResponse_duplicate_status_witness :
    parseResponse (fun s => ⟨[("Status", ["200 OK", "404 Not Found"])], s, none⟩)
        ⟨"GET", ⟨"/", ""⟩, "", ""⟩ ⟨"body"⟩ =
      (none, some (.errorf ("unexpected number of Status headers ("
        ++ toString ["200 OK", "404 Not Found"].length ++ ")"))) :=
  (parseResponse_duplicate_status (fun s => ⟨[("Status", ["200 OK", "404 Not Found"])], s, none⟩)
    ⟨"GET", ⟨"/", ""⟩, "", ""⟩ ⟨"body"⟩ ["200 OK", "404 Not Found"] rfl (by decide)
    (by decide)).1

/-- C4. On a successfully read header block without a `Status` field, the empty
block included, `parseResponse` succeeds with status code 200, status line
`200 OK`, protocol HTTP/1.1 (major 1, minor 1), content length -1 and the parsed
header mapping as it is. -/
theorem parseResponse_default_status (R : Reader → HeaderRead) (req : Request)
    (fr : FastCGIResponse)
    (hok : (R fr.Stdout).err = none)
    (hst : (R fr.Stdout).header.get "Status" = none) :
    parseResponse R req fr =
      (some { Status := "200 OK", StatusCode := 200,
              Proto := "HTTP/1.1", ProtoMajor := 1, ProtoMinor := 1,
              ContentLength := -1, Close := false, Request := req,
              Header := (R fr.Stdout).header,
              Body := (R fr.Stdout).bufr }, none)
    ∧ ((R fr.Stdout).header = [] →
        ∃ res, parseResponse R req fr = (some res, none) ∧ res.Header.length = 0) := by
  have hp : parseResponse R req fr =
      (some { Status := "200 OK", StatusCode := 200,
              Proto := "HTTP/1.1", ProtoMajor := 1, ProtoMinor := 1,
              ContentLength := -1, Close := false, Request := req,
              Header := (R fr.Stdout).header,
              Body := (R fr.Stdout).bufr }, none) := by
    unfold parseResponse
    simp only [hok, hst, Option.isSome_none, Bool.false_eq_true, if_false]
  refine ⟨hp, fun hnil => ⟨_, hp, ?_⟩⟩
  simp [hnil]

/-- Witness for C4: the empty header block. -/
theorem parseResponse_default_status_witness :
    ∃ res, parseResponse (fun s => ⟨[], s, none⟩) ⟨"GET", ⟨"/", ""⟩, "", ""⟩ ⟨"body"⟩ =
      (some res, none) ∧ res.Header.length = 0 :=
  (parseResponse_default_status (fun s => ⟨[], s, none⟩) ⟨"GET", ⟨"/", ""⟩, "", ""⟩ ⟨"body"⟩
    rfl rfl).2 rfl

/-! ## The pool: one call of `freeConn` -/

theorem getLast_append_dropLast (l : List FastCGIConn) (h : l ≠ []) :
    l = l.dropLast ++ [l.getLast h] :=
  (List.dropLast_append_getLast h).symm

/-- The result of `freeConn` on a pool with idle connections. -/
theorem freeConn_of_idle (Dial : Except Error NetConn) (NewFastCGIConn : NetConn → FastCGIConn)
    (wakeups : List RoundTripper) (rt : RoundTripper) (h : rt.freeConns ≠ []) :
    freeConnLoop rt =
        .take (rt.freeConns.getLast h) { rt with freeConns := rt.freeConns.dropLast }
    ∧ freeConn Dial NewFastCGIConn wakeups rt =
        .returned (.ok (rt.freeConns.getLast h))
          { rt with freeConns := rt.freeConns.dropLast } [] := by
  have hl : freeConnLoop rt =
      .take (rt.freeConns.getLast h) { rt with freeConns := rt.freeConns.dropLast } := by
    unfold freeConnLoop
    simp [h]
  refine ⟨hl, ?_⟩
  cases wakeups <;> simp [freeConn, hl]

/-- The loop test of `freeConn` on a pool without idle connections and with room. -/
theorem freeConnLoop_of_room (rt : RoundTripper) (hfree : rt.freeConns = [])
    (hroom : rt.maxOpenConns < 0 ∨ rt.numOpenConns < rt.maxOpenConns) :
    freeConnLoop rt = .create { rt with numOpenConns := rt.numOpenConns + 1 } := by
  unfold freeConnLoop
  have : (decide (rt.maxOpenConns < 0) || decide (rt.numOpenConns < rt.maxOpenConns)) = true := by
    simpa using hroom
  simp [hfree, this]

/-- C6. When `freeConn` takes the branch that creates a connection (no idle
connection, and the maximum negative or not reached) and the dialer fails with
`err`, it returns `err` and no connection; afterwards `numOpenConns`, the idle
list and the maximum are what they were before the call, the slot reserved by
the loop test having been given back, and exactly one `Signal` was issued. -/
theorem freeConn_dial_failure_restores (NewFastCGIConn : NetConn → FastCGIConn)
    (wakeups : List RoundTripper) (rt : RoundTripper) (err : Error)
    (hfree : rt.freeConns = [])
    (hroom : rt.maxOpenConns < 0 ∨ rt.numOpenConns < rt.maxOpenConns) :
    freeConnLoop rt = .create { rt with numOpenConns := rt.numOpenConns + 1 }
    ∧ ∃ rt1 tr, freeConn (.error err) NewFastCGIConn wakeups rt = .returned (.error err) rt1 tr
        ∧ rt1.numOpenConns = rt.numOpenConns
        ∧ rt1.freeConns = rt.freeConns
        ∧ rt1.maxOpenConns = rt.maxOpenConns
        ∧ tr.count .signal = 1 := by
  have hl := freeConnLoop_of_room rt hfree hroom
  refine ⟨hl, rt, [.dial, .signal], ?_, rfl, rfl, rfl, by decide⟩
  cases wakeups <;> simp [freeConn, hl, dial, dialFailed]

/-- Witness for C6: an unbounded pool with two open connections, none idle. -/
theorem freeConn_dial_failure_restores_witness :
    ∃ rt1 tr, freeConn (.error (.foreign "connection refused")) (fun nc => nc) []
          ⟨2, -1, []⟩ = .returned (.error (.foreign "connection refused")) rt1 tr
        ∧ rt1.numOpenConns = 2
        ∧ rt1.freeConns = []
        ∧ rt1.maxOpenConns = -1
        ∧ tr.count .signal = 1 :=
  (freeConn_dial_failure_restores (fun nc => nc) [] ⟨2, -1, []⟩
    (.foreign "connection refused") rfl (Or.inl (by decide))).2

/-- C8. With a negative maximum `freeConn` never waits: the loop test never
parks, the call never blocks and has no `wait` event; with a non-empty idle list
it removes the last idle connection and returns it, with an empty one it
increments `numOpenConns` and dials. -/
theorem freeConn_unbounded_never_waits (Dial : Except Error NetConn)
    (NewFastCGIConn : NetConn → FastCGIConn) (wakeups : List RoundTripper)
    (rt : RoundTripper) (hmax : rt.maxOpenConns < 0) :
    freeConnLoop rt ≠ .park
    ∧ Event.wait ∉ (freeConn Dial NewFastCGIConn wakeups rt).trace
    ∧ (∀ rt1 tr, freeConn Dial NewFastCGIConn wakeups rt ≠ .blocked rt1 tr)
    ∧ (rt.freeConns ≠ [] → ∃ c rest, rt.freeConns = rest ++ [c]
        ∧ freeConnLoop rt = .take c { rt with freeConns := rest }
        ∧ freeConn Dial NewFastCGIConn wakeups rt =
            .returned (.ok c) { rt with freeConns := rest } [])
    ∧ (rt.freeConns = [] →
        freeConnLoop rt = .create { rt with numOpenConns := rt.numOpenConns + 1 }
        ∧ Event.dial ∈ (freeConn Dial NewFastCGIConn wakeups rt).trace) := by
  by_cases hfree : rt.freeConns = []
  · have hl := freeConnLoop_of_room rt hfree (Or.inl hmax)
    have hf : freeConn Dial NewFastCGIConn wakeups rt =
        match dial Dial NewFastCGIConn with
        | .error err => .returned (.error err) (dialFailed { rt with numOpenConns := rt.numOpenConns + 1 }) [.dial, .signal]
        | .ok conn => .returned (.ok conn) { rt with numOpenConns := rt.numOpenConns + 1 } [.dial] := by
      cases wakeups <;> simp [freeConn, hl]
    refine ⟨by simp [hl], ?_, ?_, fun h => absurd hfree h, fun _ => ⟨hl, ?_⟩⟩
    · rw [hf]; cases dial Dial NewFastCGIConn <;> simp [Outcome.trace]
    · intro rt1 tr; rw [hf]; cases dial Dial NewFastCGIConn <;> simp
    · rw [hf]; cases dial Dial NewFastCGIConn <;> simp [Outcome.trace]
  · obtain ⟨hl, hf⟩ := freeConn_of_idle Dial NewFastCGIConn wakeups rt hfree
    refine ⟨by simp [hl], by simp [hf, Outcome.trace], by simp [hf], fun _ => ?_,
      fun h => absurd h hfree⟩
    exact ⟨rt.freeConns.getLast hfree, rt.freeConns.dropLast,
      getLast_append_dropLast _ hfree, hl, hf⟩

/-- Witness for C8: an unbounded pool, no idle connection, no wake-up to come. -/
theorem freeConn_unbounded_never_waits_witness :
    Event.wait ∉ (freeConn (.ok 7) (fun nc => nc) [] ⟨3, -1, []⟩).trace :=
  (freeConn_unbounded_never_waits (.ok 7) (fun nc => nc) [] ⟨3, -1, []⟩ (by decide)).2.1

/-- C10. With a non-empty idle list `freeConn` returns, without error, a member
of that list, with no dial, no wait and no signal, whatever `numOpenConns` and
`maxOpenConns` are; afterwards the idle list is the old one with that
connection taken off and the two counters are unchanged. -/
theorem freeConn_returns_idle (Dial : Except Error NetConn)
    (NewFastCGIConn : NetConn → FastCGIConn) (wakeups : List RoundTripper)
    (rt : RoundTripper) (hidle : rt.freeConns ≠ []) :
    ∃ c rest, c ∈ rt.freeConns ∧ rt.freeConns = rest ++ [c]
      ∧ freeConn Dial NewFastCGIConn wakeups rt =
          .returned (.ok c)
            { numOpenConns := rt.numOpenConns, maxOpenConns := rt.maxOpenConns,
              freeConns := rest } [] := by
  obtain ⟨_, hf⟩ := freeConn_of_idle Dial NewFastCGIConn wakeups rt hidle
  exact ⟨rt.freeConns.getLast hidle, rt.freeConns.dropLast, List.getLast_mem hidle,
    getLast_append_dropLast _ hidle, hf⟩

/-- Witness for C10: a pool over its maximum with two idle connections. -/
theorem freeConn_returns_idle_witness :
    ∃ c rest, c ∈ [4, 9] ∧ [4, 9] = rest ++ [c]
      ∧ freeConn (.error (.foreign "down")) (fun nc => nc) [] ⟨5, 1, [4, 9]⟩ =
          .returned (.ok c) { numOpenConns := 5, maxOpenConns := 1, freeConns := rest } [] :=
  freeConn_returns_idle (.error (.foreign "down")) (fun nc => nc) [] ⟨5, 1, [4, 9]⟩ (by decide)

/-! ## One call of `RoundTrip` -/

/-- C7. After a successful acquisition of `conn`, in each of the three outcomes
(the backend call fails, the header block is rejected, success) `RoundTrip`
returns with the idle list of the moment before the backend call extended by
`conn`, one element longer, and with `numOpenConns` unchanged. -/
theorem RoundTrip_releases (env : Env) (req : Request) (rt rt1 : RoundTripper)
    (conn : FastCGIConn) (tr : List Event)
    (hacq : freeConn env.Dial env.NewFastCGIConn env.wakeups rt = .returned (.ok conn) rt1 tr) :
    ∃ result rt2 tr2, RoundTrip env req rt = .returned result rt2 tr2
      ∧ rt2.freeConns = rt1.freeConns ++ [conn]
      ∧ rt2.freeConns.length = rt1.freeConns.length + 1
      ∧ rt2.numOpenConns = rt1.numOpenConns
      ∧ (∀ e, env.Do conn req.Body (NewParamStream (params req)) = .error e →
          result = (none, some e))
      ∧ (∀ fr, env.Do conn req.Body (NewParamStream (params req)) = .ok fr →
          result = parseResponse env.ReadMIMEHeader req fr) := by
  unfold RoundTrip
  simp only [hacq, releaseConn]
  refine ⟨_, _, _, rfl, rfl, by simp, rfl, ?_, ?_⟩
  · intro e he; simp [he]
  · intro fr hfr; simp [hfr]

/-- Witness for C7: a call on a fresh pool whose backend call fails. -/
theorem RoundTrip_releases_witness :
    ∃ result rt2 tr2,
      RoundTrip ⟨.ok 3, fun nc => nc + 100, [], fun _ _ _ => .error (.foreign "broken pipe"),
          fun s => ⟨[], s, none⟩⟩ ⟨"GET", ⟨"/p", "a=1"⟩, "", "10.0.0.1:5"⟩ NewRoundTripper =
        .returned result rt2 tr2
      ∧ rt2.freeConns = [] ++ [103] := by
  obtain ⟨result, rt2, tr2, h, hf, _⟩ :=
    RoundTrip_releases ⟨.ok 3, fun nc => nc + 100, [], fun _ _ _ => .error (.foreign "broken pipe"),
      fun s => ⟨[], s, none⟩⟩ ⟨"GET", ⟨"/p", "a=1"⟩, "", "10.0.0.1:5"⟩ NewRoundTripper
      ⟨1, -1, []⟩ 103 [.dial] rfl
  exact ⟨result, rt2, tr2, h, hf⟩

/-- C9, counterexample.  A request whose remote address is `10.0.0.1:5`, sent
through a fresh pool: the backend call gets REMOTE_ADDR `127.0.0.1` and
SCRIPT_NAME `fastcgi`, the request's own address is not among the parameters,
and a request that differs only in its remote address gets the same ones. -/
theorem RoundTrip_remote_addr_constant :
    (RoundTrip ⟨.ok 3, fun nc => nc + 100, [], fun _ _ _ => .ok ⟨"\r\nhello"⟩,
        fun s => ⟨[], s, none⟩⟩ ⟨"GET", ⟨"/p", "a=1"⟩, "", "10.0.0.1:5"⟩ NewRoundTripper).trace =
      [.acquire, .dial,
        .backend 103 ""
          [ ⟨"QUERY_STRING", "a=1"⟩, ⟨"REQUEST_METHOD", "GET"⟩, ⟨"REQUEST_URI", "/p"⟩,
            ⟨"REMOTE_ADDR", "127.0.0.1"⟩, ⟨"SCRIPT_NAME", "fastcgi"⟩ ],
        .release 103, .signal]
    ∧ (⟨"REMOTE_ADDR", "10.0.0.1:5"⟩ : FastCGIParam) ∉
        params ⟨"GET", ⟨"/p", "a=1"⟩, "", "10.0.0.1:5"⟩
    ∧ params ⟨"GET", ⟨"/p", "a=1"⟩, "", "192.168.1.9:80"⟩ =
        params ⟨"GET", ⟨"/p", "a=1"⟩, "", "10.0.0.1:5"⟩ :=
  ⟨by decide, by decide, by decide⟩

/-- C9, amended.  After a successful acquisition `RoundTrip` makes one backend
call, on the acquired connection, with the request body and the five
parameters QUERY_STRING, REQUEST_METHOD, REQUEST_URI, REMOTE_ADDR, SCRIPT_NAME in
that order: the first three are the raw query, the method and the URL path of
the request, the last two are the constants `127.0.0.1` and `fastcgi`. -/
theorem RoundTrip_params (env : Env) (req : Request) (rt rt1 : RoundTripper)
    (conn : FastCGIConn) (tr : List Event)
    (hacq : freeConn env.Dial env.NewFastCGIConn env.wakeups rt = .returned (.ok conn) rt1 tr) :
    ∃ result rt2, RoundTrip env req rt =
      .returned result rt2
        (.acquire :: tr ++
          [.backend conn req.Body
            [ ⟨"QUERY_STRING", req.URL.RawQuery⟩,
              ⟨"REQUEST_METHOD", req.Method⟩,
              ⟨"REQUEST_URI", req.URL.Path⟩,
              ⟨"REMOTE_ADDR", "127.0.0.1"⟩,
              ⟨"SCRIPT_NAME", "fastcgi"⟩ ],
           .release conn, .signal]) := by
  unfold RoundTrip
  simp only [hacq, releaseConn, params, NewParamStream]
  simp only [List.append_assoc, List.cons_append, List.nil_append]
  exact ⟨_, _, rfl⟩

/-- Witness for C9 (amended): a call on a fresh pool. -/
theorem RoundTrip_params_witness :
    ∃ result rt2,
      RoundTrip ⟨.ok 3, fun nc => nc + 100, [], fun _ _ _ => .error (.foreign "broken pipe"),
          fun s => ⟨[], s, none⟩⟩ ⟨"GET", ⟨"/p", "a=1"⟩, "", "10.0.0.1:5"⟩ NewRoundTripper =
        .returned result rt2
          (.acquire :: [.dial] ++
            [.backend 103 ""
              [ ⟨"QUERY_STRING", "a=1"⟩, ⟨"REQUEST_METHOD", "GET"⟩, ⟨"REQUEST_URI", "/p"⟩,
                ⟨"REMOTE_ADDR", "127.0.0.1"⟩, ⟨"SCRIPT_NAME", "fastcgi"⟩ ],
             .release 103, .signal]) :=
  RoundTrip_params ⟨.ok 3, fun nc => nc + 100, [], fun _ _ _ => .error (.foreign "broken pipe"),
    fun s => ⟨[], s, none⟩⟩ ⟨"GET", ⟨"/p", "a=1"⟩, "", "10.0.0.1:5"⟩ NewRoundTripper
    ⟨1, -1, []⟩ 103 [.dial] rfl

/-! ## Interleaved callers: the bound -/

theorem countP_set_add (p : PC → Bool) (l : List PC) (i : Nat) (a b : PC)
    (h : l[i]? = some a) :
    (l.set i b).countP p + (if p a then 1 else 0) = l.countP p + (if p b then 1 else 0) := by
  induction l generalizing i with
  | nil => simp at h
  | cons x l ih =>
    cases i with
    | zero =>
      simp only [List.getElem?_cons_zero, Option.some.injEq] at h
      subst h
      simp only [List.set_cons_zero, List.countP_cons]
      omega
    | succ i =>
      simp only [List.getElem?_cons_succ] at h
      have := ih i h
      simp only [List.set_cons_succ, List.countP_cons]
      omega

theorem signalTo_countP (p : PC → Bool) (hw : p .waiting = false) (ha : p .acquiring = false)
    (ts ts1 : List PC) (wake : Option Nat) (h : signalTo ts wake = some ts1) :
    ts1.countP p = ts.countP p := by
  cases wake with
  | none =>
    simp only [signalTo] at h
    split at h
    · cases h; rfl
    · cases h
  | some j =>
    simp only [signalTo] at h
    split at h
    · rename_i hj
      cases h
      have := countP_set_add p ts j .waiting .acquiring hj
      simpa [hw, ha] using this
    · cases h

theorem lentOut_le_occupies (ts : List PC) :
    ts.countP (fun pc => pc.held.isSome) ≤ ts.countP PC.occupies := by
  apply List.countP_mono_left
  intro pc _ h
  cases pc <;> simp_all [PC.occupies, PC.held]

theorem freeConnLoop_take (rt : RoundTripper) (c : FastCGIConn) (rt1 : RoundTripper)
    (h : freeConnLoop rt = .take c rt1) :
    ∃ hne : rt.freeConns ≠ [], c = rt.freeConns.getLast hne
      ∧ rt1 = { rt with freeConns := rt.freeConns.dropLast } := by
  unfold freeConnLoop at h
  split at h
  · split at h <;> cases h
  · rename_i hne
    cases h
    exact ⟨hne, rfl, rfl⟩

theorem freeConnLoop_create (rt rt1 : RoundTripper) (h : freeConnLoop rt = .create rt1) :
    rt.freeConns = []
    ∧ (rt.maxOpenConns < 0 ∨ rt.numOpenConns < rt.maxOpenConns)
    ∧ rt1 = { rt with numOpenConns := rt.numOpenConns + 1 } := by
  unfold freeConnLoop at h
  split at h
  · rename_i hfree
    split at h
    · rename_i hroom
      cases h
      exact ⟨hfree, by simpa using hroom, rfl⟩
    · cases h
  · cases h

theorem PoolInv_step (n : Int) (hn : 0 ≤ n) (s s1 : Sys) (a : Action)
    (ha : a.isSetMax = false) (hinv : PoolInv n s) (hstep : step s a = some s1) :
    PoolInv n s1 := by
  obtain ⟨hmax, hle, hcnt⟩ := hinv
  cases a with
  | setMax m => simp [Action.isSetMax] at ha
  | call i =>
    simp only [step] at hstep
    split at hstep
    · rename_i hi
      cases hstep
      have := countP_set_add PC.occupies s.threads i .idle .acquiring hi
      simp only [PC.occupies, PC.held, Option.isSome_none, Bool.false_eq_true, if_false,
        Nat.add_zero] at this
      exact ⟨hmax, hle, by simp only [this]; exact hcnt⟩
    · cases hstep
  | test i =>
    simp only [step] at hstep
    split at hstep
    · rename_i hi
      cases hl : freeConnLoop s.rt with
      | take c rt1 =>
        obtain ⟨hfree, _, rfl⟩ := freeConnLoop_take s.rt c rt1 hl
        simp only [hl, Option.some.injEq] at hstep
        subst hstep
        have := countP_set_add PC.occupies s.threads i .acquiring (.holding c) hi
        simp only [PC.occupies, PC.held, Option.isSome_none, Option.isSome_some,
          Bool.false_eq_true, if_false, Nat.add_zero, if_true] at this
        have hlen : s.rt.freeConns.dropLast.length + 1 = s.rt.freeConns.length := by
          have := List.length_pos.mpr hfree
          simp only [List.length_dropLast]
          omega
        refine ⟨hmax, hle, ?_⟩
        show s.rt.numOpenConns = _
        simp only [this]
        push_cast
        omega
      | create rt1 =>
        obtain ⟨hfree, hroom, rfl⟩ := freeConnLoop_create s.rt rt1 hl
        simp only [hl, Option.some.injEq] at hstep
        subst hstep
        have := countP_set_add PC.occupies s.threads i .acquiring .dialing hi
        simp only [PC.occupies, PC.held, Option.isSome_none, Bool.false_eq_true, if_false,
          Nat.add_zero, if_true] at this
        refine ⟨hmax, ?_, ?_⟩
        · show s.rt.numOpenConns + 1 ≤ n
          omega
        · show s.rt.numOpenConns + 1 = _
          simp only [this]
          push_cast
          omega
      | park =>
        simp only [hl, Option.some.injEq] at hstep
        subst hstep
        have := countP_set_add PC.occupies s.threads i .acquiring .waiting hi
        simp only [PC.occupies, PC.held, Option.isSome_none, Bool.false_eq_true, if_false,
          Nat.add_zero] at this
        exact ⟨hmax, hle, by simp only [this]; exact hcnt⟩
    · cases hstep
  | dialOk i c =>
    simp only [step] at hstep
    split at hstep
    · rename_i hi
      cases hstep
      have := countP_set_add PC.occupies s.threads i .dialing (.holding c) hi.1
      simp only [PC.occupies, PC.held, Option.isSome_some, if_true, Nat.add_left_inj] at this
      exact ⟨hmax, hle, by simp only [this]; exact hcnt⟩
    · cases hstep
  | dialErr i wake =>
    simp only [step] at hstep
    split at hstep
    · rename_i hi
      simp only [Option.map_eq_some'] at hstep
      obtain ⟨ts, hts, rfl⟩ := hstep
      have h1 := signalTo_countP PC.occupies rfl rfl _ _ _ hts
      have := countP_set_add PC.occupies s.threads i .dialing .idle hi
      simp only [PC.occupies, PC.held, Option.isSome_none, Bool.false_eq_true, if_false,
        Nat.add_zero, if_true] at this
      refine ⟨hmax, ?_, ?_⟩
      · show s.rt.numOpenConns - 1 ≤ n
        omega
      · show s.rt.numOpenConns - 1 = (s.rt.freeConns.length : Int) + _
        simp only [h1]
        omega
    · cases hstep
  | doStart i =>
    simp only [step] at hstep
    split at hstep
    · rename_i c hi
      cases hstep
      have := countP_set_add PC.occupies s.threads i (.holding c) (.calling c) hi
      simp only [PC.occupies, PC.held, Option.isSome_some, if_true, Nat.add_left_inj] at this
      exact ⟨hmax, hle, by simp only [this]; exact hcnt⟩
    · cases hstep
  | doEnd i =>
    simp only [step] at hstep
    split at hstep
    · rename_i c hi
      cases hstep
      have := countP_set_add PC.occupies s.threads i (.calling c) (.finishing c) hi
      simp only [PC.occupies, PC.held, Option.isSome_some, if_true, Nat.add_left_inj] at this
      exact ⟨hmax, hle, by simp only [this]; exact hcnt⟩
    · cases hstep
  | release i wake =>
    simp only [step] at hstep
    split at hstep
    · rename_i c hi
      simp only [Option.map_eq_some'] at hstep
      obtain ⟨ts, hts, rfl⟩ := hstep
      have h1 := signalTo_countP PC.occupies rfl rfl _ _ _ hts
      have := countP_set_add PC.occupies s.threads i (.finishing c) .idle hi
      simp only [PC.occupies, PC.held, Option.isSome_none, Option.isSome_some,
        Bool.false_eq_true, if_false, Nat.add_zero, if_true] at this
      refine ⟨hmax, hle, ?_⟩
      show s.rt.numOpenConns = ((s.rt.freeConns ++ [c]).length : Int) + _
      simp only [h1, List.length_append, List.length_singleton]
      push_cast
      omega
    · cases hstep

theorem PoolInv_run (n : Int) (hn : 0 ≤ n) (acts : List Action) :
    ∀ (s s1 : Sys), (∀ a ∈ acts, a.isSetMax = false) → PoolInv n s →
      run s acts = some s1 → PoolInv n s1 := by
  induction acts with
  | nil =>
    intro s s1 _ hinv hrun
    simp only [run, Option.some.injEq] at hrun
    exact hrun ▸ hinv
  | cons a acts ih =>
    intro s s1 hact hinv hrun
    simp only [run] at hrun
    cases hs : step s a with
    | none => simp [hs] at hrun
    | some s2 =>
      simp only [hs, Option.some_bind] at hrun
      exact ih s2 s1 (fun b hb => hact b (List.mem_cons_of_mem _ hb))
        (PoolInv_step n hn s s2 a (hact a (List.mem_cons_self _ _)) hinv hs) hrun

theorem PoolInv_init (n : Int) (hn : 0 ≤ n) (k : Nat) : PoolInv n (Sys.init n k) := by
  refine ⟨rfl, hn, ?_⟩
  simp [Sys.init, PC.occupies, PC.held, List.countP_replicate]

/-- C5. From a fresh pool whose maximum is fixed at `n ≥ 0`, after any schedule of
the callers that does not change the maximum (acquire steps, dial outcomes,
backend calls and releases of acquired connections), `numOpenConns` is at most
`n`, and so are the number of connections lent to callers and the difference of
`numOpenConns` and the number of idle connections. -/
theorem pool_bound (n : Int) (k : Nat) (acts : List Action) (s : Sys)
    (hn : 0 ≤ n) (hfix : ∀ a ∈ acts, a.isSetMax = false)
    (hrun : run (Sys.init n k) acts = some s) :
    s.rt.numOpenConns ≤ n
    ∧ (s.lentOut : Int) ≤ n
    ∧ s.rt.numOpenConns - (s.rt.freeConns.length : Int) ≤ n := by
  obtain ⟨_, hle, hcnt⟩ := PoolInv_run n hn acts _ s hfix (PoolInv_init n hn k) hrun
  have hl := lentOut_le_occupies s.threads
  refine ⟨hle, ?_, by omega⟩
  unfold Sys.lentOut
  omega

/-- Witness for C5: two callers on a pool of maximum 1; the second one parks,
is woken by the release of the first and takes over its connection. -/
theorem pool_bound_witness :
    (⟨⟨1, 1, []⟩, [.idle, .holding 7]⟩ : Sys).rt.numOpenConns ≤ 1
    ∧ ((⟨⟨1, 1, []⟩, [.idle, .holding 7]⟩ : Sys).lentOut : Int) ≤ 1
    ∧ (⟨⟨1, 1, []⟩, [.idle, .holding 7]⟩ : Sys).rt.numOpenConns
        - (((⟨⟨1, 1, []⟩, [.idle, .holding 7]⟩ : Sys).rt.freeConns.length : Nat) : Int) ≤ 1 :=
  pool_bound 1 2
    [.call 0, .call 1, .test 0, .test 1, .dialOk 0 7, .doStart 0, .doEnd 0,
      .release 0 (some 1), .test 1]
    ⟨⟨1, 1, []⟩, [.idle, .holding 7]⟩ (by decide) (by decide) (by decide)

/-! ## Response translation: the header mapping and the result pair -/

theorem delete_get_other (h : MIMEHeader) (key k : String) (hk : k ≠ key) :
    (h.delete key).get k = h.get k := by
  unfold MIMEHeader.get MIMEHeader.delete
  induction h with
  | nil => rfl
  | cons kv h ih =>
    by_cases hkv : kv.1 = key
    · have hb : (k == kv.1) = false := by
        simpa using fun e : k = kv.1 => hk (e.trans hkv)
      have hb2 : (k == key) = false := by simpa using hk
      simp [List.filter, hkv, List.lookup, hb, hb2, ih]
    · have hb : (kv.1 != key) = true := by simpa using hkv
      by_cases hkk : k = kv.1
      · simp [List.filter, hb, List.lookup, hkk]
      · have hb2 : (k == kv.1) = false := by simpa using hkk
        simp [List.filter, hb, List.lookup, hb2, ih]

theorem delete_get_self (h : MIMEHeader) (key : String) :
    (h.delete key).get key = none := by
  unfold MIMEHeader.get MIMEHeader.delete
  induction h with
  | nil => rfl
  | cons kv h ih =>
    by_cases hk : kv.1 = key
    · simp [List.filter, hk, ih]
    · have hb : (kv.1 != key) = true := by simpa using hk
      have hb2 : (key == kv.1) = false := by
        simpa using fun e : key = kv.1 => hk e.symm
      simp [List.filter, hb, List.lookup, hb2, ih]

theorem delete_of_get_none (h : MIMEHeader) (key : String) (hn : h.get key = none) :
    h.delete key = h := by
  unfold MIMEHeader.get at hn
  unfold MIMEHeader.delete
  induction h with
  | nil => rfl
  | cons kv h ih =>
    by_cases hk : key = kv.1
    · have hb : (key == kv.1) = true := by simpa using hk
      simp [List.lookup, hb] at hn
    · have hb : (key == kv.1) = false := by simpa using hk
      have hb2 : (kv.1 != key) = true := by
        simpa using fun e : kv.1 = key => hk e.symm
      simp only [List.lookup, hb] at hn
      simp [List.filter, hb2, ih hn]

/-- The header mapping of every response that `parseResponse` returns. -/
theorem header_of_parseResponse (R : Reader → HeaderRead) (req : Request) (fr : FastCGIResponse)
    (res : Response) (err : Option Error) (h : parseResponse R req fr = (some res, err)) :
    res.Header = (R fr.Stdout).header.delete "Status" := by
  unfold parseResponse at h
  dsimp only at h
  split at h
  · cases h
  · split at h
    · split at h
      · cases h
      · split at h
        · cases h
        · split at h
          · cases h
          · simp only [Prod.mk.injEq, Option.some.injEq] at h
            rw [← h.1]
    · rename_i hnone
      simp only [Prod.mk.injEq, Option.some.injEq] at h
      rw [← h.1]
      exact (delete_of_get_none _ _ hnone).symm

/-- The result pair of `parseResponse` has exactly one non-nil component. -/
theorem parseResponse_exactly_one (R : Reader → HeaderRead) (req : Request)
    (fr : FastCGIResponse) :
    ((parseResponse R req fr).1.isSome ∧ (parseResponse R req fr).2 = none)
    ∨ ((parseResponse R req fr).1 = none ∧ (parseResponse R req fr).2.isSome) := by
  unfold parseResponse
  dsimp only
  split
  · rename_i herr
    exact Or.inr ⟨rfl, herr⟩
  · split
    · split
      · exact Or.inr ⟨rfl, rfl⟩
      · split
        · exact Or.inr ⟨rfl, rfl⟩
        · split
          · exact Or.inr ⟨rfl, rfl⟩
          · exact Or.inl ⟨rfl, rfl⟩
    · exact Or.inl ⟨rfl, rfl⟩

/-- C16. Whenever `parseResponse` succeeds, the header mapping of the response
is the parsed mapping with the key `Status` deleted and nothing else changed:
`Status` is absent, every other field name keeps its list of values as it is,
and every binding of the response is a binding of the parsed mapping, in the
same order. -/
theorem parseResponse_header_frame (R : Reader → HeaderRead) (req : Request)
    (fr : FastCGIResponse) (res : Response)
    (h : parseResponse R req fr = (some res, none)) :
    res.Header = (R fr.Stdout).header.delete "Status"
    ∧ res.Header.get "Status" = none
    ∧ (∀ k, k ≠ "Status" → res.Header.get k = (R fr.Stdout).header.get k)
    ∧ res.Header.Sublist (R fr.Stdout).header := by
  have hh := header_of_parseResponse R req fr res none h
  refine ⟨hh, ?_, ?_, ?_⟩
  · rw [hh]; exact delete_get_self _ _
  · intro k hk; rw [hh]; exact delete_get_other _ _ _ hk
  · rw [hh]; exact List.filter_sublist _

/-- Witness for C16: a header block with a `Status` field and another field. -/
theorem parseResponse_header_frame_witness :
    (⟨"404 Not Found", 404, "HTTP/1.1", 1, 1, -1, false, ⟨"GET", ⟨"/", ""⟩, "", ""⟩,
        [("X-Powered-By", ["a", "b"])], "body"⟩ : Response).Header =
      MIMEHeader.delete [("Status", ["404 Not Found"]), ("X-Powered-By", ["a", "b"])] "Status" :=
  (parseResponse_header_frame
    (fun s => ⟨[("Status", ["404 Not Found"]), ("X-Powered-By", ["a", "b"])], s, none⟩)
    ⟨"GET", ⟨"/", ""⟩, "", ""⟩ ⟨"body"⟩
    ⟨"404 Not Found", 404, "HTTP/1.1", 1, 1, -1, false, ⟨"GET", ⟨"/", ""⟩, "", ""⟩,
      [("X-Powered-By", ["a", "b"])], "body"⟩ (by decide)).1

/-- C17. The status code is not range-checked: on the header blocks `Status: -5 x`
and `Status: 0 x` the call succeeds and the status codes are -5 and 0, both
outside 100..599. -/
theorem parseResponse_status_not_range_checked :
    (∃ res, parseResponse (fun s => ⟨[("Status", ["-5 x"])], s, none⟩)
        ⟨"GET", ⟨"/", ""⟩, "", ""⟩ ⟨"body"⟩ = (some res, none)
      ∧ res.StatusCode = -5 ∧ res.Status = "-5 x"
      ∧ ¬ (100 ≤ res.StatusCode ∧ res.StatusCode ≤ 599))
    ∧ (∃ res, parseResponse (fun s => ⟨[("Status", ["0 x"])], s, none⟩)
        ⟨"GET", ⟨"/", ""⟩, "", ""⟩ ⟨"body"⟩ = (some res, none)
      ∧ res.StatusCode = 0 ∧ res.Status = "0 x"
      ∧ ¬ (100 ≤ res.StatusCode ∧ res.StatusCode ≤ 599)) :=
  ⟨⟨⟨"-5 x", -5, "HTTP/1.1", 1, 1, -1, false, ⟨"GET", ⟨"/", ""⟩, "", ""⟩, [], "body"⟩,
      by decide, rfl, rfl, by decide⟩,
    ⟨⟨"0 x", 0, "HTTP/1.1", 1, 1, -1, false, ⟨"GET", ⟨"/", ""⟩, "", ""⟩, [], "body"⟩,
      by decide, rfl, rfl, by decide⟩⟩

/-! ## `SetMaxOpenConns` -/

/-- C12. `SetMaxOpenConns n` sets the maximum to `n` and leaves `numOpenConns` and
the idle list as they are; on a pool without idle connections the next
`freeConn` reserves a slot and dials when `n < 0` or `numOpenConns < n`, and
waits otherwise. -/
theorem SetMaxOpenConns_effect (rt : RoundTripper) (n : Int) :
    (SetMaxOpenConns rt n).maxOpenConns = n
    ∧ (SetMaxOpenConns rt n).numOpenConns = rt.numOpenConns
    ∧ (SetMaxOpenConns rt n).freeConns = rt.freeConns
    ∧ (rt.freeConns = [] →
        freeConnLoop (SetMaxOpenConns rt n) =
          (if n < 0 ∨ rt.numOpenConns < n then
            .create { numOpenConns := rt.numOpenConns + 1, maxOpenConns := n, freeConns := [] }
          else .park)
        ∧ ∀ (Dial : Except Error NetConn) (NewFastCGIConn : NetConn → FastCGIConn)
            (wakeups : List RoundTripper),
            (freeConn Dial NewFastCGIConn wakeups (SetMaxOpenConns rt n)).trace.head? =
              some (if n < 0 ∨ rt.numOpenConns < n then .dial else .wait)) := by
  refine ⟨rfl, rfl, rfl, fun hfree => ?_⟩
  have hl : freeConnLoop (SetMaxOpenConns rt n) =
      (if n < 0 ∨ rt.numOpenConns < n then
        .create { numOpenConns := rt.numOpenConns + 1, maxOpenConns := n, freeConns := [] }
      else .park) := by
    unfold freeConnLoop SetMaxOpenConns
    by_cases hc : n < 0 ∨ rt.numOpenConns < n
    · have : (decide (n < 0) || decide (rt.numOpenConns < n)) = true := by simpa using hc
      simp [hfree, this, hc]
    · have : (decide (n < 0) || decide (rt.numOpenConns < n)) = false := by
        simpa using hc
      simp [hfree, this, hc]
  refine ⟨hl, fun Dial NewFastCGIConn wakeups => ?_⟩
  by_cases hc : n < 0 ∨ rt.numOpenConns < n
  · rw [if_pos hc] at hl ⊢
    cases wakeups <;> cases hd : dial Dial NewFastCGIConn <;>
      simp [freeConn, hl, hd, Outcome.trace]
  · rw [if_neg hc] at hl ⊢
    cases wakeups with
    | nil => simp [freeConn, hl, Outcome.trace]
    | cons w ws =>
      simp only [freeConn, hl]
      cases freeConn Dial NewFastCGIConn ws w <;> simp [Outcome.after, Outcome.trace]

/-- Witness for C12: the maximum is lowered to 1 on a pool with two open
connections, none idle; the next `freeConn` waits. -/
theorem SetMaxOpenConns_effect_witness :
    (freeConn (.ok 7) (fun nc => nc) [] (SetMaxOpenConns ⟨2, -1, []⟩ 1)).trace.head? =
      some (if (1 : Int) < 0 ∨ (2 : Int) < 1 then .dial else .wait) :=
  ((SetMaxOpenConns_effect ⟨2, -1, []⟩ 1).2.2.2 rfl).2 (.ok 7) (fun nc => nc) []

/-! ## One call of `RoundTrip`: the result pair and the events -/

/-- C13. `RoundTrip` returns whenever its acquisition returns, and it stays
blocked only while `freeConn` is parked in `cond.Wait()`.  The error of a failed
acquisition is returned as it is with no response, and so are the error of the
backend call and the error of the header reader, both after the release of the
connection.  In every returned pair exactly one of the response and the error
is non-nil.  A dial that fails on a pool with room makes the call return the
dialer's error. -/
theorem RoundTrip_exactly_one (env : Env) (req : Request) (rt : RoundTripper) :
    (∀ err rt1 tr1,
        freeConn env.Dial env.NewFastCGIConn env.wakeups rt = .returned (.error err) rt1 tr1 →
        RoundTrip env req rt = .returned (none, some err) rt1 (.acquire :: tr1))
    ∧ (∀ conn rt1 tr1 err,
        freeConn env.Dial env.NewFastCGIConn env.wakeups rt = .returned (.ok conn) rt1 tr1 →
        env.Do conn req.Body (NewParamStream (params req)) = .error err →
        RoundTrip env req rt =
          .returned (none, some err) { rt1 with freeConns := rt1.freeConns ++ [conn] }
            (.acquire :: tr1 ++
              [.backend conn req.Body (NewParamStream (params req)), .release conn]
              ++ [.signal]))
    ∧ (∀ conn rt1 tr1 fr err,
        freeConn env.Dial env.NewFastCGIConn env.wakeups rt = .returned (.ok conn) rt1 tr1 →
        env.Do conn req.Body (NewParamStream (params req)) = .ok fr →
        (env.ReadMIMEHeader fr.Stdout).err = some err →
        RoundTrip env req rt =
          .returned (none, some err) { rt1 with freeConns := rt1.freeConns ++ [conn] }
            (.acquire :: tr1 ++
              [.backend conn req.Body (NewParamStream (params req)), .release conn]
              ++ [.signal]))
    ∧ (∀ v rt1 tr1,
        freeConn env.Dial env.NewFastCGIConn env.wakeups rt = .returned v rt1 tr1 →
        ∃ result rt2 tr, RoundTrip env req rt = .returned result rt2 tr
          ∧ ((result.1.isSome ∧ result.2 = none) ∨ (result.1 = none ∧ result.2.isSome)))
    ∧ (∀ rt1 tr1, RoundTrip env req rt = .blocked rt1 tr1 →
        ∃ tr0, freeConn env.Dial env.NewFastCGIConn env.wakeups rt = .blocked rt1 tr0)
    ∧ (∀ result rt2 tr, RoundTrip env req rt = .returned result rt2 tr →
        (result.1.isSome ∧ result.2 = none) ∨ (result.1 = none ∧ result.2.isSome))
    ∧ (∀ err, env.Dial = .error err → rt.freeConns = [] →
        (rt.maxOpenConns < 0 ∨ rt.numOpenConns < rt.maxOpenConns) →
        RoundTrip env req rt = .returned (none, some err) rt [.acquire, .dial, .signal]) := by
  have hacqErr : ∀ err rt1 tr1,
      freeConn env.Dial env.NewFastCGIConn env.wakeups rt = .returned (.error err) rt1 tr1 →
      RoundTrip env req rt = .returned (none, some err) rt1 (.acquire :: tr1) := by
    intro err rt1 tr1 hf
    unfold RoundTrip
    simp [hf]
  have hret : ∀ v rt1 tr1,
      freeConn env.Dial env.NewFastCGIConn env.wakeups rt = .returned v rt1 tr1 →
      ∃ result rt2 tr, RoundTrip env req rt = .returned result rt2 tr
        ∧ ((result.1.isSome ∧ result.2 = none) ∨ (result.1 = none ∧ result.2.isSome)) := by
    intro v rt1 tr1 hf
    cases v with
    | error e => exact ⟨_, _, _, hacqErr e rt1 tr1 hf, Or.inr ⟨rfl, rfl⟩⟩
    | ok conn =>
      unfold RoundTrip
      simp only [hf]
      refine ⟨_, _, _, rfl, ?_⟩
      cases hd : env.Do conn req.Body (NewParamStream (params req)) with
      | error e => exact Or.inr ⟨rfl, rfl⟩
      | ok fr => exact parseResponse_exactly_one env.ReadMIMEHeader req fr
  refine ⟨hacqErr, ?_, ?_, hret, ?_, ?_, ?_⟩
  · intro conn rt1 tr1 err hf hd
    unfold RoundTrip
    simp [hf, hd, releaseConn]
  · intro conn rt1 tr1 fr err hf hd herr
    have hp : parseResponse env.ReadMIMEHeader req fr = (none, some err) := by
      unfold parseResponse
      simp [herr]
    unfold RoundTrip
    simp [hf, hd, hp, releaseConn]
  · intro rt1 tr1 hb
    cases hf : freeConn env.Dial env.NewFastCGIConn env.wakeups rt with
    | blocked rt0 tr0 =>
      unfold RoundTrip at hb
      simp only [hf, Outcome.blocked.injEq] at hb
      exact ⟨tr0, by rw [hb.1]⟩
    | returned v rt0 tr0 =>
      obtain ⟨result, rt2, tr, hr, -⟩ := hret v rt0 tr0 hf
      rw [hr] at hb
      cases hb
  · intro result rt2 tr hr
    cases hf : freeConn env.Dial env.NewFastCGIConn env.wakeups rt with
    | blocked rt0 tr0 =>
      unfold RoundTrip at hr
      simp [hf] at hr
    | returned v rt0 tr0 =>
      obtain ⟨result1, rt3, tr3, hr1, hex⟩ := hret v rt0 tr0 hf
      rw [hr1] at hr
      cases hr
      exact hex
  · intro err hdial hfree hroom
    have hl := freeConnLoop_of_room rt hfree hroom
    have hf : freeConn env.Dial env.NewFastCGIConn env.wakeups rt =
        .returned (.error err) rt [.dial, .signal] := by
      rw [hdial]
      cases env.wakeups <;> simp [freeConn, hl, dial, dialFailed]
    exact hacqErr err rt _ hf

/-- Witness for C13: a call on a fresh pool whose dial fails returns the
dialer's error and no response. -/
theorem RoundTrip_exactly_one_witness :
    RoundTrip ⟨.error (.foreign "connection refused"), fun nc => nc, [],
        fun _ _ _ => .ok ⟨""⟩, fun s => ⟨[], s, none⟩⟩
        ⟨"GET", ⟨"/", ""⟩, "", ""⟩ NewRoundTripper =
      .returned (none, some (.foreign "connection refused")) NewRoundTripper
        [.acquire, .dial, .signal] :=
  (RoundTrip_exactly_one
    ⟨.error (.foreign "connection refused"), fun nc => nc, [], fun _ _ _ => .ok ⟨""⟩,
      fun s => ⟨[], s, none⟩⟩ ⟨"GET", ⟨"/", ""⟩, "", ""⟩ NewRoundTripper).2.2.2.2.2.2
    (.foreign "connection refused") rfl rfl (Or.inl (by decide))

theorem Outcome.trace_after {α : Type} (pre : List Event) (o : Outcome α) :
    (o.after pre).trace = pre ++ o.trace := by
  cases o <;> rfl

theorem freeConn_eq_of_take (Dial : Except Error NetConn)
    (NewFastCGIConn : NetConn → FastCGIConn) (wakeups : List RoundTripper)
    (rt rt1 : RoundTripper) (c : FastCGIConn) (hl : freeConnLoop rt = .take c rt1) :
    freeConn Dial NewFastCGIConn wakeups rt = .returned (.ok c) rt1 [] := by
  cases wakeups <;> simp [freeConn, hl]

theorem freeConn_eq_of_create (Dial : Except Error NetConn)
    (NewFastCGIConn : NetConn → FastCGIConn) (wakeups : List RoundTripper)
    (rt rt1 : RoundTripper) (hl : freeConnLoop rt = .create rt1) :
    freeConn Dial NewFastCGIConn wakeups rt =
      match dial Dial NewFastCGIConn with
      | .error err => .returned (.error err) (dialFailed rt1) [.dial, .signal]
      | .ok conn => .returned (.ok conn) rt1 [.dial] := by
  cases wakeups <;> simp [freeConn, hl]

theorem freeConn_eq_of_park_nil (Dial : Except Error NetConn)
    (NewFastCGIConn : NetConn → FastCGIConn) (rt : RoundTripper)
    (hl : freeConnLoop rt = .park) :
    freeConn Dial NewFastCGIConn [] rt = .blocked rt [.wait] := by
  simp [freeConn, hl]

theorem freeConn_eq_of_park_cons (Dial : Except Error NetConn)
    (NewFastCGIConn : NetConn → FastCGIConn) (w : RoundTripper) (ws : List RoundTripper)
    (rt : RoundTripper) (hl : freeConnLoop rt = .park) :
    freeConn Dial NewFastCGIConn (w :: ws) rt =
      (freeConn Dial NewFastCGIConn ws w).after [.wait] := by
  simp [freeConn, hl]

/-- The events of `freeConn` are dials, signals and waits. -/
theorem freeConn_trace_events (Dial : Except Error NetConn)
    (NewFastCGIConn : NetConn → FastCGIConn) (wakeups : List RoundTripper) :
    ∀ (rt : RoundTripper), ∀ e ∈ (freeConn Dial NewFastCGIConn wakeups rt).trace,
      e = .dial ∨ e = .signal ∨ e = .wait := by
  induction wakeups with
  | nil =>
    intro rt e he
    cases hl : freeConnLoop rt with
    | take c rt1 =>
      rw [freeConn_eq_of_take _ _ _ _ _ _ hl] at he
      simp [Outcome.trace] at he
    | create rt1 =>
      rw [freeConn_eq_of_create _ _ _ _ _ hl] at he
      cases hd : dial Dial NewFastCGIConn with
      | error x =>
        rw [hd] at he
        simp [Outcome.trace] at he
        rcases he with h1 | h1 <;> simp [h1]
      | ok c =>
        rw [hd] at he
        simp [Outcome.trace] at he
        simp [he]
    | park =>
      rw [freeConn_eq_of_park_nil _ _ _ hl] at he
      simp [Outcome.trace] at he
      simp [he]
  | cons w ws ih =>
    intro rt e he
    cases hl : freeConnLoop rt with
    | take c rt1 =>
      rw [freeConn_eq_of_take _ _ _ _ _ _ hl] at he
      simp [Outcome.trace] at he
    | create rt1 =>
      rw [freeConn_eq_of_create _ _ _ _ _ hl] at he
      cases hd : dial Dial NewFastCGIConn with
      | error x =>
        rw [hd] at he
        simp [Outcome.trace] at he
        rcases he with h1 | h1 <;> simp [h1]
      | ok c =>
        rw [hd] at he
        simp [Outcome.trace] at he
        simp [he]
    | park =>
      rw [freeConn_eq_of_park_cons _ _ _ _ _ hl, Outcome.trace_after] at he
      rcases List.mem_append.mp he with h1 | h1
      · simp at h1
        simp [h1]
      · exact ih w e h1

theorem countP_eq_zero_of_events (p : Event → Bool) (hd : p .dial = false)
    (hs : p .signal = false) (hw : p .wait = false) (tr : List Event)
    (h : ∀ e ∈ tr, e = .dial ∨ e = .signal ∨ e = .wait) : tr.countP p = 0 := by
  rw [List.countP_eq_zero]
  intro e he
  rcases h e he with rfl | rfl | rfl <;> simp [hd, hs, hw]

/-- C14, counterexample.  A call on a fresh pool whose dial fails returns the
dialer's error after one acquire, with no release and no backend call. -/
theorem RoundTrip_no_release_on_dial_failure :
    RoundTrip ⟨.error (.foreign "connection refused"), fun nc => nc, [],
        fun _ _ _ => .ok ⟨""⟩, fun s => ⟨[], s, none⟩⟩
        ⟨"GET", ⟨"/", ""⟩, "", ""⟩ NewRoundTripper =
      .returned (none, some (.foreign "connection refused")) NewRoundTripper
        [.acquire, .dial, .signal]
    ∧ List.countP Event.isRelease [.acquire, .dial, .signal] = 0
    ∧ List.count Event.acquire [.acquire, .dial, .signal] = 1 :=
  ⟨by decide, by decide, by decide⟩

/-- C14, amended.  Every `RoundTrip` call that returns has made exactly one acquire
and at most one backend call; when the acquisition succeeded (backend error,
parse error or success) it has made exactly one release, of the acquired
connection, and exactly one backend call; when the acquisition failed it has
made no release and no backend call. -/
theorem RoundTrip_acquire_release_counts (env : Env) (req : Request)
    (rt rt2 : RoundTripper) (result : Option Response × Option Error) (tr : List Event)
    (h : RoundTrip env req rt = .returned result rt2 tr) :
    tr.count .acquire = 1
    ∧ tr.countP Event.isBackend ≤ 1
    ∧ (∀ conn rt1 tr1,
        freeConn env.Dial env.NewFastCGIConn env.wakeups rt = .returned (.ok conn) rt1 tr1 →
        tr.countP Event.isRelease = 1 ∧ tr.countP Event.isBackend = 1
        ∧ Event.release conn ∈ tr)
    ∧ (∀ err rt1 tr1,
        freeConn env.Dial env.NewFastCGIConn env.wakeups rt = .returned (.error err) rt1 tr1 →
        tr.countP Event.isRelease = 0 ∧ tr.countP Event.isBackend = 0) := by
  have hev := freeConn_trace_events env.Dial env.NewFastCGIConn env.wakeups rt
  unfold RoundTrip at h
  cases hf : freeConn env.Dial env.NewFastCGIConn env.wakeups rt with
  | blocked rt1 tr1 => simp [hf] at h
  | returned v rt1 tr1 =>
    rw [hf] at hev
    simp only [Outcome.trace] at hev
    have ha : tr1.countP (fun e => e == Event.acquire) = 0 :=
      countP_eq_zero_of_events _ rfl rfl rfl tr1 hev
    have hr : tr1.countP Event.isRelease = 0 :=
      countP_eq_zero_of_events _ rfl rfl rfl tr1 hev
    have hb : tr1.countP Event.isBackend = 0 :=
      countP_eq_zero_of_events _ rfl rfl rfl tr1 hev
    cases v with
    | error e =>
      simp only [hf, Outcome.returned.injEq] at h
      obtain ⟨-, -, htr⟩ := h
      subst htr
      refine ⟨?_, ?_, ?_, ?_⟩
      · simp [List.count, List.countP_cons, ha]
      · simp [List.countP_cons, hb, Event.isBackend]
      · intro conn rt1 tr1 h1
        cases h1
      · intro err rt1 tr1 _
        simp [List.countP_cons, hr, hb, Event.isBackend, Event.isRelease]
    | ok conn =>
      simp only [hf, Outcome.returned.injEq] at h
      obtain ⟨-, -, htr⟩ := h
      subst htr
      have hcb : List.countP Event.isBackend
          (Event.acquire :: tr1 ++
            [Event.backend conn req.Body (NewParamStream (params req)), Event.release conn]
            ++ (releaseConn rt1 conn).2) = 1 := by
        simp [List.countP_cons, List.countP_append, hb, Event.isBackend, releaseConn]
      have hcr : List.countP Event.isRelease
          (Event.acquire :: tr1 ++
            [Event.backend conn req.Body (NewParamStream (params req)), Event.release conn]
            ++ (releaseConn rt1 conn).2) = 1 := by
        simp [List.countP_cons, List.countP_append, hr, Event.isRelease, releaseConn]
      refine ⟨?_, by omega, ?_, ?_⟩
      · simp [List.count, List.countP_cons, List.countP_append, ha, releaseConn]
      · intro conn1 rt1 tr1 h1
        cases h1
        exact ⟨hcr, hcb, by simp⟩
      · intro err rt1 tr1 h1
        cases h1

/-- Witness for C14 (amended): a call on a fresh pool whose backend call fails. -/
theorem RoundTrip_acquire_release_counts_witness :
    List.count Event.acquire
        [.acquire, .dial, .backend 103 "" (NewParamStream (params ⟨"GET", ⟨"/p", "a=1"⟩, "", ""⟩)),
          .release 103, .signal] = 1
    ∧ List.countP Event.isBackend
        [.acquire, .dial, .backend 103 "" (NewParamStream (params ⟨"GET", ⟨"/p", "a=1"⟩, "", ""⟩)),
          .release 103, .signal] ≤ 1 :=
  have h := RoundTrip_acquire_release_counts
    ⟨.ok 3, fun nc => nc + 100, [], fun _ _ _ => .error (.foreign "broken pipe"),
      fun s => ⟨[], s, none⟩⟩ ⟨"GET", ⟨"/p", "a=1"⟩, "", ""⟩ NewRoundTripper ⟨1, -1, [103]⟩
    (none, some (.foreign "broken pipe"))
    [.acquire, .dial, .backend 103 "" (NewParamStream (params ⟨"GET", ⟨"/p", "a=1"⟩, "", ""⟩)),
      .release 103, .signal] (by decide)
  ⟨h.1, h.2.1⟩

/-! ## Interleaved callers: the accounting invariant -/

theorem CountInv_step (s s1 : Sys) (a : Action) (hinv : CountInv s)
    (hstep : step s a = some s1) : CountInv s1 := by
  unfold CountInv at hinv ⊢
  cases a with
  | setMax m =>
    simp only [step, Option.some.injEq] at hstep
    subst hstep
    exact hinv
  | call i =>
    simp only [step] at hstep
    split at hstep
    · rename_i hi
      cases hstep
      have := countP_set_add PC.occupies s.threads i .idle .acquiring hi
      simp only [PC.occupies, PC.held, Option.isSome_none, Bool.false_eq_true, if_false,
        Nat.add_zero] at this
      simp only [this]
      exact hinv
    · cases hstep
  | test i =>
    simp only [step] at hstep
    split at hstep
    · rename_i hi
      cases hl : freeConnLoop s.rt with
      | take c rt1 =>
        obtain ⟨hfree, _, rfl⟩ := freeConnLoop_take s.rt c rt1 hl
        simp only [hl, Option.some.injEq] at hstep
        subst hstep
        have := countP_set_add PC.occupies s.threads i .acquiring (.holding c) hi
        simp only [PC.occupies, PC.held, Option.isSome_none, Option.isSome_some,
          Bool.false_eq_true, if_false, Nat.add_zero, if_true] at this
        have hlen : s.rt.freeConns.dropLast.length + 1 = s.rt.freeConns.length := by
          have := List.length_pos.mpr hfree
          simp only [List.length_dropLast]
          omega
        show s.rt.numOpenConns = _
        simp only [this]
        push_cast
        omega
      | create rt1 =>
        obtain ⟨hfree, hroom, rfl⟩ := freeConnLoop_create s.rt rt1 hl
        simp only [hl, Option.some.injEq] at hstep
        subst hstep
        have := countP_set_add PC.occupies s.threads i .acquiring .dialing hi
        simp only [PC.occupies, PC.held, Option.isSome_none, Bool.false_eq_true, if_false,
          Nat.add_zero, if_true] at this
        show s.rt.numOpenConns + 1 = _
        simp only [this]
        push_cast
        omega
      | park =>
        simp only [hl, Option.some.injEq] at hstep
        subst hstep
        have := countP_set_add PC.occupies s.threads i .acquiring .waiting hi
        simp only [PC.occupies, PC.held, Option.isSome_none, Bool.false_eq_true, if_false,
          Nat.add_zero] at this
        simp only [this]
        exact hinv
    · cases hstep
  | dialOk i c =>
    simp only [step] at hstep
    split at hstep
    · rename_i hi
      cases hstep
      have := countP_set_add PC.occupies s.threads i .dialing (.holding c) hi.1
      simp only [PC.occupies, PC.held, Option.isSome_some, if_true, Nat.add_left_inj] at this
      simp only [this]
      exact hinv
    · cases hstep
  | dialErr i wake =>
    simp only [step] at hstep
    split at hstep
    · rename_i hi
      simp only [Option.map_eq_some'] at hstep
      obtain ⟨ts, hts, rfl⟩ := hstep
      have h1 := signalTo_countP PC.occupies rfl rfl _ _ _ hts
      have := countP_set_add PC.occupies s.threads i .dialing .idle hi
      simp only [PC.occupies, PC.held, Option.isSome_none, Bool.false_eq_true, if_false,
        Nat.add_zero, if_true] at this
      show s.rt.numOpenConns - 1 = (s.rt.freeConns.length : Int) + _
      simp only [h1]
      omega
    · cases hstep
  | doStart i =>
    simp only [step] at hstep
    split at hstep
    · rename_i c hi
      cases hstep
      have := countP_set_add PC.occupies s.threads i (.holding c) (.calling c) hi
      simp only [PC.occupies, PC.held, Option.isSome_some, if_true, Nat.add_left_inj] at this
      simp only [this]
      exact hinv
    · cases hstep
  | doEnd i =>
    simp only [step] at hstep
    split at hstep
    · rename_i c hi
      cases hstep
      have := countP_set_add PC.occupies s.threads i (.calling c) (.finishing c) hi
      simp only [PC.occupies, PC.held, Option.isSome_some, if_true, Nat.add_left_inj] at this
      simp only [this]
      exact hinv
    · cases hstep
  | release i wake =>
    simp only [step] at hstep
    split at hstep
    · rename_i c hi
      simp only [Option.map_eq_some'] at hstep
      obtain ⟨ts, hts, rfl⟩ := hstep
      have h1 := signalTo_countP PC.occupies rfl rfl _ _ _ hts
      have := countP_set_add PC.occupies s.threads i (.finishing c) .idle hi
      simp only [PC.occupies, PC.held, Option.isSome_none, Option.isSome_some,
        Bool.false_eq_true, if_false, Nat.add_zero, if_true] at this
      show s.rt.numOpenConns = ((s.rt.freeConns ++ [c]).length : Int) + _
      simp only [h1, List.length_append, List.length_singleton]
      push_cast
      omega
    · cases hstep

/-- An invariant of `step` that holds at the start of a schedule holds at its end. -/
theorem run_invariant (P : Sys → Prop)
    (hP : ∀ s s1 a, P s → step s a = some s1 → P s1) (acts : List Action) :
    ∀ (s s1 : Sys), P s → run s acts = some s1 → P s1 := by
  induction acts with
  | nil =>
    intro s s1 hinv hrun
    simp only [run, Option.some.injEq] at hrun
    exact hrun ▸ hinv
  | cons a acts ih =>
    intro s s1 hinv hrun
    simp only [run] at hrun
    cases hs : step s a with
    | none => simp [hs] at hrun
    | some s2 =>
      simp only [hs, Option.some_bind] at hrun
      exact ih s2 s1 (hP s s2 a hinv hs) hrun

/-- C11. From the pool built by `NewRoundTripper`, after any schedule of the callers
(acquire steps, dial successes and failures, backend calls, releases) and of
`SetMaxOpenConns` calls, `numOpenConns` is not negative and the number of idle
connections is at most `numOpenConns`. -/
theorem pool_counter_invariant (k : Nat) (acts : List Action) (s : Sys)
    (hrun : run (Sys.start k) acts = some s) :
    0 ≤ s.rt.numOpenConns
    ∧ (s.rt.freeConns.length : Int) ≤ s.rt.numOpenConns
    ∧ s.rt.numOpenConns =
        (s.rt.freeConns.length : Int) + (s.threads.countP PC.occupies : Int) := by
  have h0 : CountInv (Sys.start k) := by
    simp [CountInv, Sys.start, NewRoundTripper, PC.occupies, PC.held, List.countP_replicate]
  have h := run_invariant CountInv (fun s s1 a => CountInv_step s s1 a) acts _ s h0 hrun
  unfold CountInv at h
  refine ⟨by omega, by omega, h⟩

/-- Witness for C11: a schedule with a failed dial, a change of the maximum and a
completed call. -/
theorem pool_counter_invariant_witness :
    0 ≤ (⟨⟨1, 1, [7]⟩, [.idle, .acquiring]⟩ : Sys).rt.numOpenConns
    ∧ ((⟨⟨1, 1, [7]⟩, [.idle, .acquiring]⟩ : Sys).rt.freeConns.length : Int)
        ≤ (⟨⟨1, 1, [7]⟩, [.idle, .acquiring]⟩ : Sys).rt.numOpenConns :=
  have h := pool_counter_invariant 2
    [.call 0, .test 0, .dialErr 0 none, .setMax 1, .call 0, .call 1, .test 0, .test 1,
      .dialOk 0 7, .doStart 0, .doEnd 0, .release 0 (some 1)]
    ⟨⟨1, 1, [7]⟩, [.idle, .acquiring]⟩ (by decide)
  ⟨h.1, h.2.1⟩

/-! ## Interleaved callers: mutual exclusion -/

theorem count_filterMap_held (l : List PC) (c : FastCGIConn) :
    (l.filterMap PC.held).count c = l.countP (fun pc => pc.held == some c) := by
  induction l with
  | nil => rfl
  | cons x l ih =>
    cases hx : x.held with
    | none => simp [List.filterMap_cons, hx, List.countP_cons, ih]
    | some d =>
      by_cases hd : d = c
      · simp [List.filterMap_cons, hx, List.countP_cons, ih, hd]
      · have hd2 : (d == c) = false := by simpa using hd
        simp [List.filterMap_cons, hx, List.countP_cons, ih, hd, List.count_cons, hd2]

theorem countP_ge_two (p : PC → Bool) (l : List PC) (i j : Nat) (a b : PC) (hij : i ≠ j)
    (hi : l[i]? = some a) (hj : l[j]? = some b) (ha : p a = true) (hb : p b = true)
    (hidle : p .idle = false) : 2 ≤ l.countP p := by
  have h1 := countP_set_add p l i a .idle hi
  have hj2 : (l.set i .idle)[j]? = some b := by
    rw [List.getElem?_set_ne hij]
    exact hj
  have h2 := countP_set_add p (l.set i .idle) j b .idle hj2
  simp only [ha, hb, hidle, if_true, Bool.false_eq_true, if_false, Nat.add_zero] at h1 h2
  omega

theorem heldCount_set (c : FastCGIConn) (l : List PC) (i : Nat) (a b : PC) (x y : Bool)
    (h : l[i]? = some a) (hx : (a.held == some c) = x) (hy : (b.held == some c) = y) :
    (l.set i b).countP (fun pc => pc.held == some c) + (if x = true then 1 else 0) =
      l.countP (fun pc => pc.held == some c) + (if y = true then 1 else 0) := by
  subst hx hy
  exact countP_set_add (fun pc => pc.held == some c) l i a b h

theorem held_beq_self (c : FastCGIConn) : ((some c : Option FastCGIConn) == some c) = true := by
  simp

theorem held_beq_ne (c0 c : FastCGIConn) (h : c0 ≠ c) :
    ((some c0 : Option FastCGIConn) == some c) = false := by
  simpa using h

theorem LentOnce_step (s s1 : Sys) (a : Action) (hinv : LentOnce s)
    (hstep : step s a = some s1) : LentOnce s1 := by
  intro c
  have hc := hinv c
  cases a with
  | setMax m =>
    simp only [step, Option.some.injEq] at hstep
    subst hstep
    exact hc
  | call i =>
    simp only [step] at hstep
    split at hstep
    · rename_i hi
      cases hstep
      have := heldCount_set c s.threads i .idle .acquiring false false hi rfl rfl
      simp only [Bool.false_eq_true, if_false, Nat.add_zero] at this
      show s.rt.freeConns.count c + List.countP _ (s.threads.set i .acquiring) ≤ 1
      omega
    · cases hstep
  | test i =>
    simp only [step] at hstep
    split at hstep
    · rename_i hi
      cases hl : freeConnLoop s.rt with
      | take c0 rt1 =>
        obtain ⟨hfree, hc0, rfl⟩ := freeConnLoop_take s.rt c0 rt1 hl
        simp only [hl, Option.some.injEq] at hstep
        subst hstep
        have hsplit := getLast_append_dropLast s.rt.freeConns hfree
        rw [← hc0] at hsplit
        show s.rt.freeConns.dropLast.count c + List.countP _ (s.threads.set i (.holding c0)) ≤ 1
        by_cases hcc : c0 = c
        · have hcount : s.rt.freeConns.count c = s.rt.freeConns.dropLast.count c + 1 := by
            conv_lhs => rw [hsplit]
            simp [List.count_append, List.count_singleton, hcc]
          have := heldCount_set c s.threads i .acquiring (.holding c0) false true hi rfl
            (hcc ▸ held_beq_self c0)
          simp only [Bool.false_eq_true, if_false, if_true, Nat.add_zero] at this
          omega
        · have hcount : s.rt.freeConns.count c = s.rt.freeConns.dropLast.count c := by
            have hb : (c0 == c) = false := by simpa using hcc
            conv_lhs => rw [hsplit]
            simp [List.count_append, List.count_singleton, hb]
          have := heldCount_set c s.threads i .acquiring (.holding c0) false false hi rfl
            (held_beq_ne c0 c hcc)
          simp only [Bool.false_eq_true, if_false, Nat.add_zero] at this
          omega
      | create rt1 =>
        obtain ⟨hfree, hroom, rfl⟩ := freeConnLoop_create s.rt rt1 hl
        simp only [hl, Option.some.injEq] at hstep
        subst hstep
        have := heldCount_set c s.threads i .acquiring .dialing false false hi rfl rfl
        simp only [Bool.false_eq_true, if_false, Nat.add_zero] at this
        show s.rt.freeConns.count c + List.countP _ (s.threads.set i .dialing) ≤ 1
        omega
      | park =>
        simp only [hl, Option.some.injEq] at hstep
        subst hstep
        have := heldCount_set c s.threads i .acquiring .waiting false false hi rfl rfl
        simp only [Bool.false_eq_true, if_false, Nat.add_zero] at this
        show s.rt.freeConns.count c + List.countP _ (s.threads.set i .waiting) ≤ 1
        omega
    · cases hstep
  | dialOk i c0 =>
    simp only [step] at hstep
    split at hstep
    · rename_i hi
      cases hstep
      show s.rt.freeConns.count c + List.countP _ (s.threads.set i (.holding c0)) ≤ 1
      by_cases hcc : c0 = c
      · have hfresh : s.conns.count c = 0 := by
          rw [List.count_eq_zero]
          exact hcc ▸ hi.2
        unfold Sys.conns at hfresh
        rw [List.count_append, count_filterMap_held] at hfresh
        have := heldCount_set c s.threads i .dialing (.holding c0) false true hi.1 rfl
          (hcc ▸ held_beq_self c0)
        simp only [Bool.false_eq_true, if_false, if_true, Nat.add_zero] at this
        omega
      · have := heldCount_set c s.threads i .dialing (.holding c0) false false hi.1 rfl
          (held_beq_ne c0 c hcc)
        simp only [Bool.false_eq_true, if_false, Nat.add_zero] at this
        omega
    · cases hstep
  | dialErr i wake =>
    simp only [step] at hstep
    split at hstep
    · rename_i hi
      simp only [Option.map_eq_some'] at hstep
      obtain ⟨ts, hts, rfl⟩ := hstep
      have h1 := signalTo_countP (fun pc => pc.held == some c) rfl rfl _ _ _ hts
      have := heldCount_set c s.threads i .dialing .idle false false hi rfl rfl
      simp only [Bool.false_eq_true, if_false, Nat.add_zero] at this
      show s.rt.freeConns.count c + List.countP _ ts ≤ 1
      omega
    · cases hstep
  | doStart i =>
    simp only [step] at hstep
    split at hstep
    · rename_i c0 hi
      cases hstep
      have := heldCount_set c s.threads i (.holding c0) (.calling c0) _ _ hi rfl rfl
      show s.rt.freeConns.count c + List.countP _ (s.threads.set i (.calling c0)) ≤ 1
      have e : (PC.holding c0).held = (PC.calling c0).held := rfl
      simp only [e, Nat.add_left_inj] at this
      omega
    · cases hstep
  | doEnd i =>
    simp only [step] at hstep
    split at hstep
    · rename_i c0 hi
      cases hstep
      have := heldCount_set c s.threads i (.calling c0) (.finishing c0) _ _ hi rfl rfl
      show s.rt.freeConns.count c + List.countP _ (s.threads.set i (.finishing c0)) ≤ 1
      have e : (PC.calling c0).held = (PC.finishing c0).held := rfl
      simp only [e, Nat.add_left_inj] at this
      omega
    · cases hstep
  | release i wake =>
    simp only [step] at hstep
    split at hstep
    · rename_i c0 hi
      simp only [Option.map_eq_some'] at hstep
      obtain ⟨ts, hts, rfl⟩ := hstep
      have h1 := signalTo_countP (fun pc => pc.held == some c) rfl rfl _ _ _ hts
      show (s.rt.freeConns ++ [c0]).count c + List.countP _ ts ≤ 1
      by_cases hcc : c0 = c
      · subst hcc
        have hcount : (s.rt.freeConns ++ [c0]).count c0 = s.rt.freeConns.count c0 + 1 := by
          simp [List.count_append, List.count_singleton]
        have := heldCount_set c0 s.threads i (.finishing c0) .idle true false hi
          (held_beq_self c0) rfl
        simp only [Bool.false_eq_true, if_false, if_true, Nat.add_zero] at this
        omega
      · have hcount : (s.rt.freeConns ++ [c0]).count c = s.rt.freeConns.count c := by
          have hb : (c0 == c) = false := by simpa using hcc
          simp [List.count_append, List.count_singleton, hb]
        have := heldCount_set c s.threads i (.finishing c0) .idle false false hi
          (held_beq_ne c0 c hcc) rfl
        simp only [Bool.false_eq_true, if_false, Nat.add_zero] at this
        omega
    · cases hstep

theorem LentOnce_init (n : Int) (k : Nat) : LentOnce (Sys.init n k) := by
  intro c
  simp [Sys.init, List.countP_replicate, PC.held]

/-- C15. From a fresh pool with any maximum `n` (in particular `n = 1`), after any
schedule of the callers and of `SetMaxOpenConns` calls: no connection occurs
twice among the idle and the lent ones, a connection lent to a caller is not
in the idle list, no connection is lent to two callers, and so no two callers
are inside the backend call on the same connection. -/
theorem pool_mutual_exclusion (n : Int) (k : Nat) (acts : List Action) (s : Sys)
    (hrun : run (Sys.init n k) acts = some s) :
    s.conns.Nodup
    ∧ (∀ (i : Nat) (pc : PC) (c : FastCGIConn),
        s.threads[i]? = some pc → pc.held = some c → c ∉ s.rt.freeConns)
    ∧ (∀ (i j : Nat) (pi pj : PC) (c : FastCGIConn), i ≠ j →
        s.threads[i]? = some pi → s.threads[j]? = some pj →
        pi.held = some c → pj.held ≠ some c)
    ∧ (∀ (i j : Nat) (c : FastCGIConn), i ≠ j → s.threads[i]? = some (PC.calling c) →
        s.threads[j]? ≠ some (PC.calling c)) := by
  have h : LentOnce s :=
    run_invariant LentOnce (fun s s1 a => LentOnce_step s s1 a) acts _ s
      (LentOnce_init n k) hrun
  have h3 : ∀ (i j : Nat) (pi pj : PC) (c : FastCGIConn), i ≠ j →
      s.threads[i]? = some pi → s.threads[j]? = some pj →
      pi.held = some c → pj.held ≠ some c := by
    intro i j pi pj c hij hi hj hpi hpj
    have := countP_ge_two (fun pc => pc.held == some c) s.threads i j pi pj hij hi hj
      (by simp [hpi]) (by simp [hpj]) rfl
    have := h c
    omega
  refine ⟨?_, ?_, h3, ?_⟩
  · rw [List.nodup_iff_count_le_one]
    intro c
    unfold Sys.conns
    rw [List.count_append, count_filterMap_held]
    exact h c
  · intro i pc c hi hpc hmem
    have h1 : 0 < s.rt.freeConns.count c := List.count_pos_iff.mpr hmem
    have h2 : 0 < s.threads.countP (fun pc => pc.held == some c) := by
      rw [List.countP_pos_iff]
      exact ⟨pc, List.getElem?_mem hi, by simp [hpc]⟩
    have := h c
    omega
  · intro i j c hij hi hj
    exact h3 i j _ _ c hij hi hj rfl rfl

/-- Witness for C15: two callers on a pool of maximum 1; while the first is inside
the backend call the second is parked. -/
theorem pool_mutual_exclusion_witness :
    (⟨⟨1, 1, []⟩, [.calling 7, .waiting]⟩ : Sys).conns.Nodup :=
  (pool_mutual_exclusion 1 2
    [.call 0, .call 1, .test 0, .test 1, .dialOk 0 7, .doStart 0]
    ⟨⟨1, 1, []⟩, [.calling 7, .waiting]⟩ (by decide)).1

end Fcgirt
